import Mathlib

/-!
Verification development for the `jal` language front end (lexer + parser).

The Rust sources (`src/lexer.rs`, `src/token.rs`, `src/ast.rs`, `src/parser.rs`)
are shallowly embedded below.  Machine integers (`usize`, `i32`) are modelled
as `Nat`/`Int`; `i32` literal parsing checks the `i32::MAX` bound explicitly.
Rust `f32` payloads of float tokens are modelled as the literal's character
list, since no claim depends on the numeric value of a float.  A Rust panic
(index out of bounds, `Vec::remove` on an empty vector, `unwrap` on `None`,
`unreachable!`) is modelled as an explicit failure outcome.  Rust string
slicing `&s[i..]`, which panics when `i` is past the end (or not a character
boundary), is modelled at the character level: the model is byte-faithful for
ASCII inputs, and theorems over all inputs carry an ASCII hypothesis where it
matters.
-/

set_option maxHeartbeats 3200000

/-- Character list abbreviation; Rust `String`/`&str` payloads are modelled as
lists of characters. -/
abbrev Str := List Char

/-- `TokenType` from `src/token.rs` (derived `PartialEq` compares payloads
structurally, which the derived `DecidableEq`/`BEq` here mirrors). -/
inductive TokenType where
  | identifier (name : Str)
  | int (value : Int)
  | float (literal : Str)
  | string (value : Str)
  | intKeyword | floatKeyword | stringKeyword | boolKeyword
  | trueKeyword | falseKeyword | constKeyword
  | ifKeyword | elseKeyword | doKeyword | whileKeyword | forKeyword | ofKeyword
  | switchKeyword | caseKeyword | breakKeyword | continueKeyword
  | functionKeyword | returnKeyword | enumKeyword | objectKeyword | dictKeyword
  | classKeyword | extendsKeyword | implementsKeyword | interfaceKeyword
  | publicKeyword | privateKeyword | staticKeyword
  | importKeyword | fromKeyword | exportKeyword | defaultKeyword
  | newKeyword | thisKeyword
  | plus | minus | star | slash | percent
  | plusPlus | minusMinus
  | equals | plusEquals | minusEquals | starEquals | slashEquals | percentEquals
  | equalsEquals | notEquals
  | greaterThan | lessThan | greaterThanEquals | lessThanEquals
  | logicalAnd | logicalOr | logicalNot
  | semicolon | comma | colon | dot
  | leftParen | rightParen | leftBrace | rightBrace | leftBracket | rightBracket
  | fatArrow | equalsGreaterThan
  | eof
deriving Repr

/-- Structural equality of token types, as generated by Rust's derived
`PartialEq` on `TokenType`: payload-carrying variants compare their payloads
(so `Identifier("x") != Identifier("")`). -/
def TokenType.beq : TokenType → TokenType → Bool
  | .identifier a, .identifier b => a = b
  | .int a, .int b => a = b
  | .float a, .float b => a = b
  | .string a, .string b => a = b
  | .intKeyword, .intKeyword => true
  | .floatKeyword, .floatKeyword => true
  | .stringKeyword, .stringKeyword => true
  | .boolKeyword, .boolKeyword => true
  | .trueKeyword, .trueKeyword => true
  | .falseKeyword, .falseKeyword => true
  | .constKeyword, .constKeyword => true
  | .ifKeyword, .ifKeyword => true
  | .elseKeyword, .elseKeyword => true
  | .doKeyword, .doKeyword => true
  | .whileKeyword, .whileKeyword => true
  | .forKeyword, .forKeyword => true
  | .ofKeyword, .ofKeyword => true
  | .switchKeyword, .switchKeyword => true
  | .caseKeyword, .caseKeyword => true
  | .breakKeyword, .breakKeyword => true
  | .continueKeyword, .continueKeyword => true
  | .functionKeyword, .functionKeyword => true
  | .returnKeyword, .returnKeyword => true
  | .enumKeyword, .enumKeyword => true
  | .objectKeyword, .objectKeyword => true
  | .dictKeyword, .dictKeyword => true
  | .classKeyword, .classKeyword => true
  | .extendsKeyword, .extendsKeyword => true
  | .implementsKeyword, .implementsKeyword => true
  | .interfaceKeyword, .interfaceKeyword => true
  | .publicKeyword, .publicKeyword => true
  | .privateKeyword, .privateKeyword => true
  | .staticKeyword, .staticKeyword => true
  | .importKeyword, .importKeyword => true
  | .fromKeyword, .fromKeyword => true
  | .exportKeyword, .exportKeyword => true
  | .defaultKeyword, .defaultKeyword => true
  | .newKeyword, .newKeyword => true
  | .thisKeyword, .thisKeyword => true
  | .plus, .plus => true
  | .minus, .minus => true
  | .star, .star => true
  | .slash, .slash => true
  | .percent, .percent => true
  | .plusPlus, .plusPlus => true
  | .minusMinus, .minusMinus => true
  | .equals, .equals => true
  | .plusEquals, .plusEquals => true
  | .minusEquals, .minusEquals => true
  | .starEquals, .starEquals => true
  | .slashEquals, .slashEquals => true
  | .percentEquals, .percentEquals => true
  | .equalsEquals, .equalsEquals => true
  | .notEquals, .notEquals => true
  | .greaterThan, .greaterThan => true
  | .lessThan, .lessThan => true
  | .greaterThanEquals, .greaterThanEquals => true
  | .lessThanEquals, .lessThanEquals => true
  | .logicalAnd, .logicalAnd => true
  | .logicalOr, .logicalOr => true
  | .logicalNot, .logicalNot => true
  | .semicolon, .semicolon => true
  | .comma, .comma => true
  | .colon, .colon => true
  | .dot, .dot => true
  | .leftParen, .leftParen => true
  | .rightParen, .rightParen => true
  | .leftBrace, .leftBrace => true
  | .rightBrace, .rightBrace => true
  | .leftBracket, .leftBracket => true
  | .rightBracket, .rightBracket => true
  | .fatArrow, .fatArrow => true
  | .equalsGreaterThan, .equalsGreaterThan => true
  | .eof, .eof => true
  | _, _ => false

/-- `Token` from `src/token.rs`: a token type with 1-based line/column. -/
structure Token where
  type : TokenType
  line : Nat
  column : Nat
deriving Repr

/-- `Token::new`. -/
def Token.new (type : TokenType) (line column : Nat) : Token :=
  ⟨type, line, column⟩

/-- The message of a `LexerError` (`src/error.rs` stores a `String`; the
`format!` texts produced in `src/lexer.rs` are represented structurally so
that each distinct message is one constructor). -/
inductive LexMessage where
  /-- "Unexpected character: (c)" -/
  | unexpectedChar (c : Char)
  /-- "Invalid character (ampersand)" -/
  | invalidAmp
  /-- "Invalid character (pipe)" -/
  | invalidPipe
  /-- "Unterminated string literal" -/
  | unterminatedString
  /-- "Invalid float literal" -/
  | invalidFloat
  /-- "Invalid integer literal" -/
  | invalidInt
  /-- "Invalid number literal" -/
  | invalidNumber
deriving DecidableEq, Repr

/-- `LexerError` from `src/error.rs`. -/
structure LexerError where
  message : LexMessage
  line : Nat
  column : Nat
deriving DecidableEq, Repr

/-- The mutable fields of `Lexer` (`src/lexer.rs`).  `source` is the input,
`currentPosition` the byte index (character index: the model is for ASCII
inputs), `currentChar` the cached current character. -/
structure LexState where
  source : Str
  currentChar : Option Char
  currentPosition : Nat
  line : Nat
  column : Nat
  tokens : List Token
  errors : List LexerError
deriving Repr

namespace Lexer

/-- Rust slicing `&source[i..]`: panics (`none`) when `i` is past the end of
the string.  For ASCII sources byte indices and character indices agree. -/
def sliceFrom (s : Str) (i : Nat) : Option Str :=
  if i ≤ s.length then some (s.drop i) else none

/-- `Lexer::consume`: advance one byte, bump the column, recache the current
character.  `none` models the out-of-bounds panic of the slice. -/
def consume (st : LexState) : Option LexState :=
  (sliceFrom st.source (st.currentPosition + 1)).map fun rest =>
    { st with
      currentPosition := st.currentPosition + 1
      column := st.column + 1
      currentChar := rest.head? }

/-- `Lexer::peek`: look at the character after the current position.  `none`
models the out-of-bounds panic of the slice. -/
def peekCh (st : LexState) : Option (Option Char) :=
  (sliceFrom st.source (st.currentPosition + 1)).map List.head?

/-- `Lexer::new`: seeds `current_char` with the first character (or `'\0'`),
then immediately calls `consume` — so the first character of the source is
consumed unexamined, and the constructor panics (`none`) on an empty source
because `consume` slices at index 1. -/
def new (source : Str) : Option LexState :=
  consume
    { source := source
      currentChar := some (source.head?.getD '\x00')
      currentPosition := 0
      line := 1
      column := 1
      tokens := []
      errors := [] }

/-- `Lexer::add_token`. -/
def addToken (st : LexState) (tt : TokenType) : LexState :=
  { st with tokens := st.tokens ++ [Token.new tt st.line st.column] }

/-- `Lexer::error`. -/
def pushError (st : LexState) (m : LexMessage) : LexState :=
  { st with errors := st.errors ++ [⟨m, st.line, st.column⟩] }

/-- `Lexer::is_valid_identifier_start` (Rust `char::is_alphabetic`, which on
the ASCII model domain coincides with `Char.isAlpha`). -/
def isValidIdentifierStart (c : Char) : Bool :=
  c.isAlpha || c = '_'

/-- Length of the single-line-comment regex match `//.*` at the start of the
remaining source: everything up to (excluding) the next newline. -/
def singleLineCommentLen (rem : Str) : Nat :=
  (rem.takeWhile (· ≠ '\n')).length

/-- Index of the first occurrence of `*/` in a character list, if any. -/
def findCommentClose : Str → Option Nat
  | [] => none
  | [_] => none
  | '*' :: '/' :: _ => some 0
  | _ :: rest => (findCommentClose rest).map (· + 1)

/-- Length of the lazy multi-line-comment regex match `/\*[\s\S]*?\*/` at the
start of the remaining source, `none` when there is no closing `*/`. -/
def multiLineCommentLen (rem : Str) : Option Nat :=
  (findCommentClose (rem.drop 2)).map fun k => 2 + k + 2

/-- `Lexer::skip_comment`: when the regex matches, jump past the match and
add its length to the column (newlines inside a multi-line comment do not
bump `line`); when it does not match, do nothing. -/
def skipComment (st : LexState) (len : Option Nat) : Option LexState :=
  match len with
  | none => some st
  | some n =>
    (sliceFrom st.source (st.currentPosition + n)).map fun rest =>
      { st with
        currentPosition := st.currentPosition + n
        column := st.column + n
        currentChar := rest.head? }

/-- Match of the string-literal regex `^"([^"\\]|\\.)*"` after the opening
quote: the matched tail (up to and including the closing quote), scanning
escapes pairwise; `.` in the regex does not match a newline, and a dangling
backslash or missing closing quote yields no match. -/
def stringLitTail : Str → Option Str
  | [] => none
  | '"' :: _ => some ['"']
  | '\\' :: [] => none
  | '\\' :: c :: rest =>
    if c = '\n' then none
    else (stringLitTail rest).map fun t => '\\' :: c :: t
  | c :: rest => (stringLitTail rest).map fun t => c :: t

/-- The full string-literal regex match at the start of the remaining source
(including both quotes), if any. -/
def stringLitMatch (rem : Str) : Option Str :=
  match rem with
  | '"' :: rest => (stringLitTail rest).map fun t => '"' :: t
  | _ => none

/-- `Lexer::process_escape_sequences`. -/
def processEscapeSequences : Str → Str
  | [] => []
  | '\\' :: rest =>
    match rest with
    | 'n' :: r => '\n' :: processEscapeSequences r
    | 't' :: r => '\t' :: processEscapeSequences r
    | 'r' :: r => '\r' :: processEscapeSequences r
    | '\\' :: r => '\\' :: processEscapeSequences r
    | '"' :: r => '"' :: processEscapeSequences r
    | other :: r => '\\' :: other :: processEscapeSequences r
    | [] => ['\\']
  | c :: rest => c :: processEscapeSequences rest

/-- One step of the `line`/`column` update of `Lexer::consume_matched_string`. -/
def advancePos (lc : Nat × Nat) (c : Char) : Nat × Nat :=
  if c = '\n' then (lc.1 + 1, 1) else (lc.1, lc.2 + 1)

/-- `Lexer::consume_matched_string`: jump past the matched characters,
updating line/column per character. -/
def consumeMatchedString (st : LexState) (matched : Str) : Option LexState :=
  let lc := matched.foldl advancePos (st.line, st.column)
  (sliceFrom st.source (st.currentPosition + matched.length)).map fun rest =>
    { st with
      currentPosition := st.currentPosition + matched.length
      line := lc.1
      column := lc.2
      currentChar := rest.head? }

/-- `Lexer::string`: on a regex match, consume it and push a string token of
the escape-processed interior; otherwise record an unterminated-string error
(without consuming anything). -/
def stringTok (st : LexState) : Option LexState :=
  (sliceFrom st.source st.currentPosition).bind fun rem =>
    match stringLitMatch rem with
    | some lit =>
      (consumeMatchedString st lit).map fun st' =>
        addToken st' (.string (processEscapeSequences (lit.drop 1).dropLast))
    | none => some (pushError st .unterminatedString)

/-- The float regex `^\d+\.\d+` at the start of the remaining source. -/
def floatMatch (rem : Str) : Option Str :=
  let d1 := rem.takeWhile Char.isDigit
  if d1.isEmpty then none
  else
    match rem.drop d1.length with
    | '.' :: rest =>
      let d2 := rest.takeWhile Char.isDigit
      if d2.isEmpty then none else some (d1 ++ '.' :: d2)
    | _ => none

/-- The integer regex `^\d+` at the start of the remaining source. -/
def intMatch (rem : Str) : Option Str :=
  let d := rem.takeWhile Char.isDigit
  if d.isEmpty then none else some d

/-- Numeric value of a digit string. -/
def digitsToNat (ds : Str) : Nat :=
  ds.foldl (fun acc c => acc * 10 + (c.toNat - '0'.toNat)) 0

/-- `Lexer::number`: try the float pattern first, then the integer pattern;
`i32` parsing fails above `i32::MAX` (the digit strings are unsigned). -/
def number (st : LexState) : Option LexState :=
  (sliceFrom st.source st.currentPosition).bind fun rem =>
    match floatMatch rem with
    | some lit =>
      (consumeMatchedString st lit).map fun st' => addToken st' (.float lit)
    | none =>
      match intMatch rem with
      | some lit =>
        (consumeMatchedString st lit).map fun st' =>
          if digitsToNat lit ≤ 2147483647 then
            addToken st' (.int (digitsToNat lit))
          else
            pushError st' .invalidInt
      | none => some (pushError st .invalidNumber)

/-- The keyword table of `Lexer::identifier`. -/
def keywordLookup (ident : Str) : TokenType :=
  if ident = "int".toList then .intKeyword
  else if ident = "float".toList then .floatKeyword
  else if ident = "string".toList then .stringKeyword
  else if ident = "bool".toList then .boolKeyword
  else if ident = "true".toList then .trueKeyword
  else if ident = "false".toList then .falseKeyword
  else if ident = "const".toList then .constKeyword
  else if ident = "if".toList then .ifKeyword
  else if ident = "else".toList then .elseKeyword
  else if ident = "do".toList then .doKeyword
  else if ident = "while".toList then .whileKeyword
  else if ident = "for".toList then .forKeyword
  else if ident = "of".toList then .ofKeyword
  else if ident = "switch".toList then .switchKeyword
  else if ident = "case".toList then .caseKeyword
  else if ident = "break".toList then .breakKeyword
  else if ident = "continue".toList then .continueKeyword
  else if ident = "function".toList then .functionKeyword
  else if ident = "return".toList then .returnKeyword
  else if ident = "enum".toList then .enumKeyword
  else if ident = "object".toList then .objectKeyword
  else if ident = "dict".toList then .dictKeyword
  else if ident = "class".toList then .classKeyword
  else if ident = "extends".toList then .extendsKeyword
  else if ident = "implements".toList then .implementsKeyword
  else if ident = "interface".toList then .interfaceKeyword
  else if ident = "public".toList then .publicKeyword
  else if ident = "private".toList then .privateKeyword
  else if ident = "static".toList then .staticKeyword
  else if ident = "import".toList then .importKeyword
  else if ident = "from".toList then .fromKeyword
  else if ident = "export".toList then .exportKeyword
  else if ident = "default".toList then .defaultKeyword
  else if ident = "new".toList then .newKeyword
  else if ident = "this".toList then .thisKeyword
  else .identifier ident

/-- Continuation condition of the `Lexer::identifier` loop. -/
def isIdentChar (c : Char) : Bool :=
  isValidIdentifierStart c || c.isDigit || c = '_'

/-- `Lexer::identifier`: consume the maximal identifier run (each `consume`
bumps position and column by one), then classify it with the keyword table. -/
def identifier (st : LexState) : Option LexState :=
  (sliceFrom st.source st.currentPosition).bind fun rem =>
    let run := rem.takeWhile isIdentChar
    (sliceFrom st.source (st.currentPosition + run.length)).map fun rest =>
      addToken
        { st with
          currentPosition := st.currentPosition + run.length
          column := st.column + run.length
          currentChar := rest.head? }
        (keywordLookup run)

/-- Helper for operator arms of the shape
`if peek == x { consume; add(two) } else if peek == y { consume; add(two') }
else { add(one) }; consume`. -/
def twoCharOp (st : LexState) (pk : Option Char)
    (alts : List (Char × TokenType)) (single : TokenType) : Option LexState :=
  match alts.find? (fun a => pk = some a.1) with
  | some a => (consume st).bind fun st1 => consume (addToken st1 a.2)
  | none => consume (addToken st single)

/-- The body of the `while let Some(c)` loop of `Lexer::tokenize`: one match
on the current character.  `none` models a panic.  The two duplicate match
arms of the Rust source (a second `'/'` arm and a second `'='` arm) are
unreachable, shadowed by the first arms, and are therefore not modelled. -/
def lexBody (c : Char) (st : LexState) : Option LexState :=
  match c with
  | ' ' | '\t' => consume st
  | '\n' => consume { st with line := st.line + 1, column := 1 }
  | '/' =>
    (peekCh st).bind fun pk =>
      if pk = some '/' then
        (sliceFrom st.source st.currentPosition).bind fun rem =>
          skipComment st (some (singleLineCommentLen rem))
      else if pk = some '*' then
        (sliceFrom st.source st.currentPosition).bind fun rem =>
          skipComment st (multiLineCommentLen rem)
      else consume (addToken st .slash)
  | '+' =>
    (peekCh st).bind fun pk =>
      twoCharOp st pk [('+', .plusPlus), ('=', .plusEquals)] .plus
  | '-' =>
    (peekCh st).bind fun pk =>
      twoCharOp st pk [('-', .minusMinus), ('=', .minusEquals)] .minus
  | '*' => (peekCh st).bind fun pk => twoCharOp st pk [('=', .starEquals)] .star
  | '%' =>
    (peekCh st).bind fun pk => twoCharOp st pk [('=', .percentEquals)] .percent
  | '=' =>
    (peekCh st).bind fun pk =>
      twoCharOp st pk [('=', .equalsEquals), ('>', .equalsGreaterThan)] .equals
  | '!' =>
    (peekCh st).bind fun pk => twoCharOp st pk [('=', .notEquals)] .logicalNot
  | '>' =>
    (peekCh st).bind fun pk =>
      twoCharOp st pk [('=', .greaterThanEquals)] .greaterThan
  | '<' =>
    (peekCh st).bind fun pk =>
      twoCharOp st pk [('=', .lessThanEquals)] .lessThan
  | '&' =>
    (peekCh st).bind fun pk =>
      if pk = some '&' then
        (consume st).map fun st1 => addToken st1 .logicalAnd
      else consume (pushError st .invalidAmp)
  | '|' =>
    (peekCh st).bind fun pk =>
      if pk = some '|' then
        (consume st).map fun st1 => addToken st1 .logicalOr
      else consume (pushError st .invalidPipe)
  | ';' => consume (addToken st .semicolon)
  | ',' => consume (addToken st .comma)
  | ':' => consume (addToken st .colon)
  | '.' => consume (addToken st .dot)
  | '(' => consume (addToken st .leftParen)
  | ')' => consume (addToken st .rightParen)
  | '{' => consume (addToken st .leftBrace)
  | '}' => consume (addToken st .rightBrace)
  | '[' => consume (addToken st .leftBracket)
  | ']' => consume (addToken st .rightBracket)
  | '"' => stringTok st
  | _ =>
    if c.isDigit then number st
    else if isValidIdentifierStart c then identifier st
    else consume (pushError st (.unexpectedChar c))

/-- Outcome of running the lexer loop with fuel. -/
inductive LexOut where
  /-- The loop finished and the end-of-input token was appended. -/
  | done (st : LexState)
  /-- A Rust panic occurred. -/
  | fatal
  /-- The fuel ran out before the loop finished (the code loops forever on
  such inputs if no fuel bound exists). -/
  | outOfFuel
deriving Repr

/-- The `while let Some(c)` loop of `Lexer::tokenize`, followed by appending
the end-of-input token. -/
def runLex : Nat → LexState → LexOut
  | 0, _ => .outOfFuel
  | fuel + 1, st =>
    match st.currentChar with
    | none => .done (addToken st .eof)
    | some c =>
      match lexBody c st with
      | none => .fatal
      | some st' => runLex fuel st'

/-- `Lexer::new` followed by `Lexer::tokenize`, with fuel for the loop. -/
def tokenizeF (source : Str) (fuel : Nat) : LexOut :=
  match new source with
  | none => .fatal
  | some st => runLex fuel st

end Lexer

section LexerChecks

example : Lexer.new [] = none := rfl

end LexerChecks

/-! ## AST (`src/ast.rs`) -/

/-- `LiteralValue` from `src/ast.rs` (`Float` carries the literal text, see
the module comment). -/
inductive LiteralValue where
  | int (v : Int)
  | float (lit : Str)
  | str (v : Str)
  | bool (b : Bool)
deriving Repr

/-- `Visibility` from `src/ast.rs` (`private` is a Lean keyword, hence
`pub`/`priv`). -/
inductive Visibility where
  | pub
  | priv
deriving Repr, DecidableEq

/-- `ImportSpecifier` from `src/ast.rs`. -/
inductive ImportSpecifier where
  | named (name : Str)
  | default (name : Str)
deriving Repr

/-- `ExportSpecifier` from `src/ast.rs`. -/
inductive ExportSpecifier where
  | named (name : Str)
  | default
deriving Repr

/-- `InterfaceMember` from `src/ast.rs`. -/
inductive InterfaceMember where
  | method (token : Token) (name : Str) (parameters : List (Str × Str))
      (returnType : Option Str)
deriving Repr

mutual

/-- `Expression` from `src/ast.rs` (`Box` indirections elided). -/
inductive Expression where
  | literal (token : Token) (value : LiteralValue)
  | identifier (token : Token) (name : Str)
  | binaryOperation (token : Token) (left : Expression) (operator : TokenType)
      (right : Expression)
  | unaryOperation (token : Token) (operator : TokenType) (operand : Expression)
  | assignment (token : Token) (left : Expression) (right : Expression)
  | functionCall (token : Token) (callee : Expression)
      (arguments : List Expression)
  | arrayLiteral (token : Token) (elements : List Expression)
  | indexAccess (token : Token) (array : Expression) (index : Expression)
  | memberAccess (token : Token) (object : Expression) (member : Str)
  | ternary (token : Token) (condition : Expression)
      (thenExpression : Expression) (elseExpression : Expression)
  | dictLiteral (token : Token) (pairs : List (Expression × Expression))
  | newExpression (token : Token) (className : Str)
      (arguments : List Expression)
  | thisExpr (token : Token)

/-- `Statement` from `src/ast.rs`. -/
inductive Statement where
  | variableDeclaration (token : Token) (name : Str) (typeName : Option Str)
      (value : Option Expression)
  | functionDeclaration (token : Token) (name : Str)
      (parameters : List (Str × Str)) (body : List Statement)
      (returnType : Option Str)
  | returnStatement (token : Token) (value : Option Expression)
  | expression (e : Expression)
  | ifStatement (token : Token) (condition : Expression)
      (thenBranch : Statement) (elseBranch : Option Statement)
  | doWhileStatement (token : Token) (body : Statement)
      (condition : Expression)
  | whileStatement (token : Token) (condition : Expression)
      (body : Statement)
  | forStatement (token : Token) (initializer : Option Statement)
      (condition : Option Expression) (increment : Option Expression)
      (body : Statement)
  | forEachStatement (token : Token) (elementVariable : Str)
      (iterator : Expression) (body : Statement)
  | breakStatement (token : Token)
  | continueStatement (token : Token)
  | enumDeclaration (token : Token) (name : Str) (variants : List Str)
  | objectDeclaration (token : Token) (name : Str)
      (properties : List (Str × Expression))
  | classDeclaration (token : Token) (name : Str) (superclass : Option Str)
      (interfaces : List Str) (members : List ClassMember)
  | interfaceDeclaration (token : Token) (name : Str)
      (members : List InterfaceMember)
  | importDeclaration (token : Token) (path : Str)
      (imports : List ImportSpecifier)
  | exportDeclaration (token : Token) (specifiers : List ExportSpecifier)
  | switchStatement (token : Token) (expression : Expression)
      (cases : List (Expression × List Statement))
      (default : Option (List Statement))
  | blockStatement (statements : List Statement)

/-- `ClassMember` from `src/ast.rs`. -/
inductive ClassMember where
  | field (token : Token) (name : Str) (typeName : Option Str)
      (value : Option Expression) (visibility : Visibility) (isStatic : Bool)
  | method (token : Token) (name : Str) (parameters : List (Str × Str))
      (body : List Statement) (returnType : Option Str)
      (visibility : Visibility) (isStatic : Bool)

end

/-! ## Parser state and outcome monad (`src/parser.rs`) -/

/-- A syntax-error message pushed onto `Parser::errors` (`format!` strings
represented structurally). -/
inductive ParseError where
  /-- "Expected token: (tokenType), got: (got) instead" (`Parser::peek_error`). -/
  | expected (tokenType : TokenType) (got : TokenType)
  /-- "Unexpected token: (token)". -/
  | unexpectedToken (t : Token)
  /-- "Unexpected token in switch statement: (tokenType)". -/
  | unexpectedSwitchToken (tt : TokenType)
deriving Repr

/-- A Rust panic inside the parser. -/
inductive Fatal where
  /-- `Vec::remove(0)` on an empty vector (`Parser::next_token`). -/
  | removeEmpty
  /-- `Option::unwrap` on `None`. -/
  | unwrapNone
  /-- `unreachable!()`. -/
  | unreachableHit
deriving Repr, DecidableEq

/-- The mutable fields of `Parser`: the two-token cursor, the remaining
`lexer.tokens` (the lexer's other fields are never read by the parser), and
the accumulated syntax errors. -/
structure PState where
  currentToken : Token
  peekToken : Token
  tokens : List Token
  errors : List ParseError

/-- The cursor's view of the not-yet-consumed tokens:
`current_token`, `peek_token`, then the rest of `lexer.tokens`. -/
def toksOf (s : PState) : List Token :=
  s.currentToken :: s.peekToken :: s.tokens

/-- Outcome of a parser computation started in state `s₀`.  A normal return
carries the final state together with a certificate that the cursor only ever
advanced (the only state transition touching the token stream is
`Parser::next_token`, which pops one token). -/
inductive PRes (s₀ : PState) (α : Type) : Type where
  | ok (a : α) (s : PState) (h : toksOf s <:+ toksOf s₀)
  | fatal (k : Fatal)
  | outOfFuel

/-- Parser computations: state in, certified outcome out. -/
def ParserM (α : Type) : Type :=
  (s₀ : PState) → PRes s₀ α

instance : Monad ParserM where
  pure a := fun s => .ok a s (List.suffix_refl _)
  bind m f := fun s =>
    match m s with
    | .ok a s' h =>
      match f a s' with
      | .ok b s'' h' => .ok b s'' (h'.trans h)
      | .fatal k => .fatal k
      | .outOfFuel => .outOfFuel
    | .fatal k => .fatal k
    | .outOfFuel => .outOfFuel

namespace Parser

/-- Raise a Rust panic. -/
def fatalM (k : Fatal) : ParserM α := fun _ => .fatal k

/-- Stop with exhausted fuel (models a potentially diverging loop). -/
def outOfFuelM : ParserM α := fun _ => .outOfFuel

/-- `Option::unwrap`. -/
def unwrapO : Option α → ParserM α
  | some a => pure a
  | none => fatalM .unwrapNone

/-- `unreachable!()` (used by the source after refuted pattern matches). -/
def unreachableM : ParserM α := fatalM .unreachableHit

/-- Read `self.current_token`. -/
def getCurrent : ParserM Token := fun s => .ok s.currentToken s (List.suffix_refl _)

/-- Read `self.peek_token`. -/
def getPeek : ParserM Token := fun s => .ok s.peekToken s (List.suffix_refl _)

/-- Read `self.lexer.tokens` (used by the `for`-dispatch lookahead). -/
def getRest : ParserM (List Token) := fun s => .ok s.tokens s (List.suffix_refl _)

/-- Append a syntax error to `self.errors`. -/
def pushErr (e : ParseError) : ParserM Unit := fun s =>
  .ok () { s with errors := s.errors ++ [e] } (List.suffix_refl _)

/-- `Parser::next_token`: shift the cursor and pop `lexer.tokens.remove(0)` —
which panics when the vector is already empty. -/
def nextToken : ParserM Unit := fun s =>
  match h : s.tokens with
  | [] => .fatal .removeEmpty
  | t :: ts =>
    .ok () { currentToken := s.peekToken, peekToken := t, tokens := ts,
             errors := s.errors }
      ⟨[s.currentToken], by simp [toksOf, h]⟩

/-- `Parser::current_token_is`. -/
def currentTokenIs (tt : TokenType) : ParserM Bool := do
  let c ← getCurrent
  pure (c.type.beq tt)

/-- `Parser::peek_token_is`. -/
def peekTokenIs (tt : TokenType) : ParserM Bool := do
  let p ← getPeek
  pure (p.type.beq tt)

/-- `Parser::peek_error`. -/
def peekError (tt : TokenType) : ParserM Unit := do
  let p ← getPeek
  pushErr (.expected tt p.type)

/-- `Parser::expect_peek`. -/
def expectPeek (tt : TokenType) : ParserM Bool := do
  let ok ← peekTokenIs tt
  if ok then do
    nextToken
    pure true
  else do
    peekError tt
    pure false

/-- The `match self.current_token.token_type { Identifier(id) => id.clone(),
_ => unreachable!() }` idiom. -/
def getIdentOfCurrent : ParserM Str := do
  let c ← getCurrent
  match c.type with
  | .identifier id => pure id
  | _ => unreachableM

/-- `Parser::get_precedence`. -/
def getPrecedence : TokenType → Int
  | .equals | .plusEquals | .minusEquals | .starEquals | .slashEquals
  | .percentEquals => 1
  | .logicalOr => 2
  | .logicalAnd => 3
  | .equalsEquals | .notEquals => 4
  | .greaterThan | .lessThan | .greaterThanEquals | .lessThanEquals => 5
  | .plus | .minus => 6
  | .star | .slash | .percent => 7
  | .leftParen => 8
  | .leftBracket => 9
  | .dot => 10
  | _ => -1

/-- `Parser::peek_precedence`. -/
def peekPrecedence : ParserM Int := do
  let p ← getPeek
  pure (getPrecedence p.type)

/-- `Parser::infix_precedence`. -/
def infixPrecedence : ParserM Int := do
  let c ← getCurrent
  pure (getPrecedence c.type)

/-- `Parser::prefix_precedence`. -/
def prefixPrecedence : ParserM Int := do
  let c ← getCurrent
  pure (match c.type with
    | .minus | .logicalNot => 7
    | _ => -1)

/-- `Parser::assignment_precedence`. -/
def assignmentPrecedence : Int := 1

/-- Rust `Option<i32>` comparison `precedence < Some(peek_precedence)`:
derived `Ord` on `Option` puts `None` below every `Some`. -/
def optLt : Option Int → Option Int → Bool
  | none, some _ => true
  | none, none => false
  | some a, some b => a < b
  | some _, none => false

/-- `Parser::parse_visibility`. -/
def parseVisibility : ParserM Visibility := do
  let isPub ← peekTokenIs .publicKeyword
  if isPub then do
    nextToken
    pure .pub
  else do
    let isPriv ← peekTokenIs .privateKeyword
    if isPriv then do
      nextToken
      pure .priv
    else
      pure .pub

/-- `Parser::parse_break_statement`. -/
def parseBreakStatement : ParserM (Option Statement) := do
  let token ← getCurrent
  pure (some (.breakStatement token))

/-- `Parser::parse_continue_statement`. -/
def parseContinueStatement : ParserM (Option Statement) := do
  let token ← getCurrent
  pure (some (.continueStatement token))

/-- `Parser::parse_identifier_expression`. -/
def parseIdentifierExpression : ParserM (Option Expression) := do
  let token ← getCurrent
  match token.type with
  | .identifier name => pure (some (.identifier token name))
  | _ => unreachableM

/-- `Parser::parse_literal_expression`. -/
def parseLiteralExpression : ParserM (Option Expression) := do
  let token ← getCurrent
  match token.type with
  | .int v => pure (some (.literal token (.int v)))
  | .float lit => pure (some (.literal token (.float lit)))
  | .string v => pure (some (.literal token (.str v)))
  | .trueKeyword => pure (some (.literal token (.bool true)))
  | .falseKeyword => pure (some (.literal token (.bool false)))
  | _ => do
    pushErr (.unexpectedToken token)
    pure none

/-- `Parser::parse_member_access`. -/
def parseMemberAccess (object : Expression) : ParserM (Option Expression) := do
  let token ← getCurrent
  let ok ← expectPeek (.identifier [])
  if ok then do
    let member ← getIdentOfCurrent
    pure (some (.memberAccess token object member))
  else
    pure none

/-- `Parser::skip_to_next_statement`. -/
def skipToNextStatement : Nat → ParserM Unit
  | 0 => outOfFuelM
  | fuel + 1 => do
    let a ← currentTokenIs .semicolon
    let b ← currentTokenIs .rightBrace
    let c ← currentTokenIs .eof
    if !a && !b && !c then do
      nextToken
      skipToNextStatement fuel
    else
      pure ()

/-- The member-recovery loop shared by `parse_class_members` and
`parse_interface_members` (skip to `;` or `}`; unlike
`skip_to_next_statement` it does not stop at end-of-input). -/
def skipMemberSync : Nat → ParserM Unit
  | 0 => outOfFuelM
  | fuel + 1 => do
    let a ← currentTokenIs .semicolon
    let b ← currentTokenIs .rightBrace
    if !a && !b then do
      nextToken
      skipMemberSync fuel
    else
      pure ()

end Parser

namespace Parser

mutual

/-- `Parser::parse_program`: collect top-level statements until the current
token is end-of-input, advancing once after every statement attempt. -/
def parseProgramLoop : Nat → List Statement → ParserM (List Statement)
  | 0, _ => outOfFuelM
  | fuel + 1, statements => do
    let isEof ← currentTokenIs .eof
    if isEof then
      pure statements
    else do
      let stmt ← parseStatement fuel
      let statements := match stmt with
        | some st => statements ++ [st]
        | none => statements
      nextToken
      parseProgramLoop fuel statements

/-- `Parser::parse_statement`: dispatch on the current token's kind; the
`for` arm additionally checks that peek equals `Identifier(String::new())`
(derived `PartialEq`, so the payload is compared) and that
`lexer.tokens.get(1)` is the `of` keyword. -/
def parseStatement : Nat → ParserM (Option Statement)
  | 0 => outOfFuelM
  | fuel + 1 => do
    let c ← getCurrent
    match c.type with
    | .intKeyword | .floatKeyword | .stringKeyword | .boolKeyword =>
      parseVariableDeclaration fuel
    | .constKeyword => parseConstVariableDeclaration fuel
    | .functionKeyword => parseFunctionDeclaration fuel
    | .returnKeyword => parseReturnStatement fuel
    | .ifKeyword => parseIfStatement fuel
    | .doKeyword => parseDoWhileStatement fuel
    | .whileKeyword => parseWhileStatement fuel
    | .forKeyword => do
      let isIdent ← peekTokenIs (.identifier [])
      let rest ← getRest
      let ofNext := match rest.get? 1 with
        | some t => t.type.beq .ofKeyword
        | none => false
      if isIdent && ofNext then
        parseForOfStatement fuel
      else
        parseForStatement fuel
    | .breakKeyword => parseBreakStatement
    | .continueKeyword => parseContinueStatement
    | .enumKeyword => parseEnumDeclaration fuel
    | .objectKeyword => parseObjectDeclaration fuel
    | .classKeyword => parseClassDeclaration fuel
    | .interfaceKeyword => parseInterfaceDeclaration fuel
    | .importKeyword => parseImportDeclaration fuel
    | .exportKeyword => parseExportDeclaration fuel
    | .switchKeyword => parseSwitchStatement fuel
    | _ => do
      let expr ← parseExpression fuel none
      match expr with
      | some e => do
        let ok ← expectPeek .semicolon
        if ok then
          pure (some (.expression e))
        else do
          skipToNextStatement fuel
          pure (some (.expression e))
      | none => do
        skipToNextStatement fuel
        pure none

/-- `Parser::parse_variable_declaration`. -/
def parseVariableDeclaration : Nat → ParserM (Option Statement)
  | 0 => outOfFuelM
  | fuel + 1 => do
    let token ← getCurrent
    let typeName : Option Str := match token.type with
      | .intKeyword => some "int".toList
      | .floatKeyword => some "float".toList
      | .stringKeyword => some "string".toList
      | .boolKeyword => some "bool".toList
      | _ => none
    let ok ← expectPeek (.identifier [])
    if ok then do
      let name ← getIdentOfCurrent
      let hasInit ← peekTokenIs .equals
      let value ← if hasInit then do
          nextToken
          nextToken
          parseExpression fuel none
        else
          pure none
      let ok2 ← expectPeek .semicolon
      if ok2 then
        pure (some (.variableDeclaration token name typeName value))
      else
        pure none
    else
      pure none

/-- `Parser::parse_const_variable_declaration`. -/
def parseConstVariableDeclaration : Nat → ParserM (Option Statement)
  | 0 => outOfFuelM
  | fuel + 1 => do
    let token ← getCurrent
    let p ← getPeek
    let typeName? : Option Str := match p.type with
      | .intKeyword => some "int".toList
      | .floatKeyword => some "float".toList
      | .stringKeyword => some "string".toList
      | .boolKeyword => some "bool".toList
      | _ => none
    match typeName? with
    | none => do
      peekError .intKeyword
      pure none
    | some typeName => do
      nextToken
      let ok ← expectPeek (.identifier [])
      if ok then do
        let name ← getIdentOfCurrent
        let ok2 ← expectPeek .equals
        if ok2 then do
          nextToken
          let value ← parseExpression fuel none
          let ok3 ← expectPeek .semicolon
          if ok3 then
            pure (some (.variableDeclaration token name (some typeName) value))
          else
            pure none
        else
          pure none
      else
        pure none

/-- `Parser::parse_function_declaration`. -/
def parseFunctionDeclaration : Nat → ParserM (Option Statement)
  | 0 => outOfFuelM
  | fuel + 1 => do
    let token ← getCurrent
    let ok ← expectPeek (.identifier [])
    if ok then do
      let name ← getIdentOfCurrent
      let ok2 ← expectPeek .leftParen
      if ok2 then do
        let parameters ← parseFunctionParameters fuel
        let ok3 ← expectPeek .rightParen
        if ok3 then do
          let hasArrow ← peekTokenIs .equalsGreaterThan
          if hasArrow then do
            nextToken
            let ok4 ← expectPeek (.identifier [])
            if ok4 then do
              let returnType ← getIdentOfCurrent
              finishFunctionDeclaration fuel token name parameters
                (some returnType)
            else
              pure none
          else
            finishFunctionDeclaration fuel token name parameters none
        else
          pure none
      else
        pure none
    else
      pure none

/-- Tail of `Parser::parse_function_declaration` after the optional return
type: brace-delimited body, then the node. -/
def finishFunctionDeclaration : Nat → Token → Str → List (Str × Str) →
    Option Str → ParserM (Option Statement)
  | 0, _, _, _, _ => outOfFuelM
  | fuel + 1, token, name, parameters, returnType => do
    let ok ← expectPeek .leftBrace
    if ok then do
      let body ← parseBlockStatement fuel
      let ok2 ← expectPeek .rightBrace
      if ok2 then
        pure (some (.functionDeclaration token name parameters body returnType))
      else
        pure none
    else
      pure none

/-- `Parser::parse_function_parameters` (empty list on immediate `)`). -/
def parseFunctionParameters : Nat → ParserM (List (Str × Str))
  | 0 => outOfFuelM
  | fuel + 1 => do
    let r ← peekTokenIs .rightParen
    if r then
      pure []
    else
      parseFunctionParametersLoop fuel []

/-- The `loop` of `Parser::parse_function_parameters`; on any failed
expectation the parameters collected so far are returned. -/
def parseFunctionParametersLoop : Nat → List (Str × Str) →
    ParserM (List (Str × Str))
  | 0, _ => outOfFuelM
  | fuel + 1, parameters => do
    let ok ← expectPeek (.identifier [])
    if ok then do
      let name ← getIdentOfCurrent
      let ok2 ← expectPeek .colon
      if ok2 then do
        let ok3 ← expectPeek (.identifier [])
        if ok3 then do
          let typeName ← getIdentOfCurrent
          let parameters := parameters ++ [(name, typeName)]
          let c ← peekTokenIs .comma
          if c then do
            nextToken
            parseFunctionParametersLoop fuel parameters
          else
            pure parameters
        else
          pure parameters
      else
        pure parameters
    else
      pure parameters

/-- `Parser::parse_return_statement`. -/
def parseReturnStatement : Nat → ParserM (Option Statement)
  | 0 => outOfFuelM
  | fuel + 1 => do
    let token ← getCurrent
    let pSemi ← peekTokenIs .semicolon
    let value ← if pSemi then
        pure none
      else do
        nextToken
        parseExpression fuel none
    let ok ← expectPeek .semicolon
    if ok then
      pure (some (.returnStatement token value))
    else
      pure none

/-- `Parser::parse_expression_statement` (present in the source, though no
call site reaches it). -/
def parseExpressionStatement : Nat → ParserM (Option Statement)
  | 0 => outOfFuelM
  | fuel + 1 => do
    let expression ← parseExpression fuel none
    let pSemi ← peekTokenIs .semicolon
    if pSemi then
      nextToken
    else
      pure ()
    pure (expression.map .expression)

/-- `Parser::parse_expression`: parse a primary expression, then run the
precedence-climbing loop. -/
def parseExpression : Nat → Option Int → ParserM (Option Expression)
  | 0, _ => outOfFuelM
  | fuel + 1, precedence => do
    let c ← getCurrent
    let leftExpr ← match c.type with
      | .identifier _ => parseIdentifierExpression
      | .int _ | .float _ | .string _ | .trueKeyword | .falseKeyword =>
        parseLiteralExpression
      | .minus | .logicalNot => parsePrefixExpression fuel
      | .leftParen => do
        nextToken
        let expr ← parseExpression fuel none
        let ok ← expectPeek .rightParen
        if ok then pure expr else pure none
      | .leftBrace => do
        let d1 ← peekTokenIs (.identifier [])
        let d2 ← peekTokenIs (.string [])
        if d1 || d2 then
          parseDictLiteral fuel
        else
          parseBlockExpression fuel
      | .newKeyword => parseNewExpression fuel
      | .thisKeyword => do
        let token ← getCurrent
        nextToken
        pure (some (.thisExpr token))
      | _ => do
        pushErr (.unexpectedToken c)
        pure none
    match leftExpr with
    | none => pure none
    | some l => parseExpressionLoop fuel precedence l

/-- The `while` loop of `Parser::parse_expression`: consume infix/postfix
constructs while the next token is not `;` and its precedence exceeds the
caller's minimum. -/
def parseExpressionLoop : Nat → Option Int → Expression →
    ParserM (Option Expression)
  | 0, _, _ => outOfFuelM
  | fuel + 1, precedence, leftExpr => do
    let pSemi ← peekTokenIs .semicolon
    let pPrec ← peekPrecedence
    if !pSemi && optLt precedence (some pPrec) then do
      let p ← getPeek
      match p.type with
      | .plus | .minus | .star | .slash | .percent | .equalsEquals
      | .notEquals | .greaterThan | .lessThan | .greaterThanEquals
      | .lessThanEquals | .logicalAnd | .logicalOr => do
        nextToken
        let le ← parseInfixExpression fuel leftExpr
        match le with
        | none => pure none
        | some l => parseExpressionLoop fuel precedence l
      | .leftParen => do
        nextToken
        let le ← parseCallExpression fuel leftExpr
        match le with
        | none => pure none
        | some l => parseExpressionLoop fuel precedence l
      | .leftBracket => do
        nextToken
        let le ← parseIndexExpression fuel leftExpr
        match le with
        | none => pure none
        | some l => parseExpressionLoop fuel precedence l
      | .dot => do
        nextToken
        let le ← parseMemberAccess leftExpr
        match le with
        | none => pure none
        | some l => parseExpressionLoop fuel precedence l
      | .equals | .plusEquals | .minusEquals | .starEquals | .slashEquals
      | .percentEquals => do
        nextToken
        let le ← parseAssignmentExpression fuel leftExpr
        match le with
        | none => pure none
        | some l => parseExpressionLoop fuel precedence l
      | _ => pure (some leftExpr)
    else
      pure (some leftExpr)

/-- `Parser::parse_prefix_expression`.  Note the Rust evaluation order: the
operand minimum precedence `self.prefix_precedence()` is computed after
`self.next_token()`, so it inspects the first operand token, not the
operator. -/
def parsePrefixExpression : Nat → ParserM (Option Expression)
  | 0 => outOfFuelM
  | fuel + 1 => do
    let token ← getCurrent
    match token.type with
    | .minus | .logicalNot => do
      nextToken
      let pp ← prefixPrecedence
      let operand ← parseExpression fuel (some pp)
      pure (operand.map fun right => .unaryOperation token token.type right)
    | _ => do
      pushErr (.unexpectedToken token)
      pure none

/-- `Parser::parse_infix_expression`. -/
def parseInfixExpression : Nat → Expression → ParserM (Option Expression)
  | 0, _ => outOfFuelM
  | fuel + 1, left => do
    let token ← getCurrent
    match token.type with
    | .plus | .minus | .star | .slash | .percent | .equalsEquals | .notEquals
    | .greaterThan | .lessThan | .greaterThanEquals | .lessThanEquals
    | .logicalAnd | .logicalOr => do
      let precedence ← infixPrecedence
      nextToken
      let right ← parseExpression fuel (some precedence)
      pure (right.map fun r => .binaryOperation token left token.type r)
    | _ => do
      pushErr (.unexpectedToken token)
      pure none

/-- `Parser::parse_assignment_expression`: recurses with the constant
assignment precedence (1). -/
def parseAssignmentExpression : Nat → Expression → ParserM (Option Expression)
  | 0, _ => outOfFuelM
  | fuel + 1, left => do
    let token ← getCurrent
    match token.type with
    | .equals | .plusEquals | .minusEquals | .starEquals | .slashEquals
    | .percentEquals => do
      nextToken
      let right ← parseExpression fuel (some assignmentPrecedence)
      pure (right.map fun r => .assignment token left r)
    | _ => do
      pushErr (.unexpectedToken token)
      pure none

/-- `Parser::parse_call_expression`. -/
def parseCallExpression : Nat → Expression → ParserM (Option Expression)
  | 0, _ => outOfFuelM
  | fuel + 1, function => do
    let token ← getCurrent
    let rp ← peekTokenIs .rightParen
    if rp then do
      nextToken
      pure (some (.functionCall token function []))
    else do
      nextToken
      let a ← parseExpression fuel none
      let a ← unwrapO a
      parseCallExpressionLoop fuel token function [a]

/-- The argument loop of `Parser::parse_call_expression` (each argument is
`unwrap`ped). -/
def parseCallExpressionLoop : Nat → Token → Expression → List Expression →
    ParserM (Option Expression)
  | 0, _, _, _ => outOfFuelM
  | fuel + 1, token, function, arguments => do
    let c ← peekTokenIs .comma
    if c then do
      nextToken
      nextToken
      let a ← parseExpression fuel none
      let a ← unwrapO a
      parseCallExpressionLoop fuel token function (arguments ++ [a])
    else do
      let ok ← expectPeek .rightParen
      if ok then
        pure (some (.functionCall token function arguments))
      else
        pure none

/-- `Parser::parse_new_expression`. -/
def parseNewExpression : Nat → ParserM (Option Expression)
  | 0 => outOfFuelM
  | fuel + 1 => do
    let token ← getCurrent
    let ok ← expectPeek (.identifier [])
    if ok then do
      let className ← getIdentOfCurrent
      let ok2 ← expectPeek .leftParen
      if ok2 then do
        let arguments ← parseExpressionList fuel .rightParen
        match arguments with
        | some args => pure (some (.newExpression token className args))
        | none => pure none
      else
        pure none
    else
      pure none

/-- `Parser::parse_expression_list`. -/
def parseExpressionList : Nat → TokenType → ParserM (Option (List Expression))
  | 0, _ => outOfFuelM
  | fuel + 1, terminator => do
    let t ← peekTokenIs terminator
    if t then do
      nextToken
      pure (some [])
    else
      parseExpressionListLoop fuel terminator []

/-- The `loop` of `Parser::parse_expression_list`. -/
def parseExpressionListLoop : Nat → TokenType → List Expression →
    ParserM (Option (List Expression))
  | 0, _, _ => outOfFuelM
  | fuel + 1, terminator, expressions => do
    let e ← parseExpression fuel none
    match e with
    | none => pure none
    | some expr => do
      let expressions := expressions ++ [expr]
      let c ← peekTokenIs .comma
      if c then do
        nextToken
        parseExpressionListLoop fuel terminator expressions
      else do
        let ok ← expectPeek terminator
        if ok then
          pure (some expressions)
        else
          pure none

/-- `Parser::parse_dict_literal`. -/
def parseDictLiteral : Nat → ParserM (Option Expression)
  | 0 => outOfFuelM
  | fuel + 1 => do
    let token ← getCurrent
    nextToken
    parseDictLiteralLoop fuel token []

/-- The pair loop of `Parser::parse_dict_literal` followed by the closing
`expect_peek(RightBrace)`. -/
def parseDictLiteralLoop : Nat → Token → List (Expression × Expression) →
    ParserM (Option Expression)
  | 0, _, _ => outOfFuelM
  | fuel + 1, token, pairs => do
    let rb ← currentTokenIs .rightBrace
    if rb then do
      let ok ← expectPeek .rightBrace
      if ok then pure (some (.dictLiteral token pairs)) else pure none
    else do
      let key ← parseExpression fuel none
      match key with
      | none => pure none
      | some key => do
        let okc ← expectPeek .colon
        if okc then do
          nextToken
          let value ← parseExpression fuel none
          match value with
          | none => pure none
          | some value => do
            let pairs := pairs ++ [(key, value)]
            let c ← peekTokenIs .comma
            if c then do
              nextToken
              parseDictLiteralLoop fuel token pairs
            else do
              let ok ← expectPeek .rightBrace
              if ok then pure (some (.dictLiteral token pairs)) else pure none
        else
          pure none

/-- `Parser::parse_index_expression`. -/
def parseIndexExpression : Nat → Expression → ParserM (Option Expression)
  | 0, _ => outOfFuelM
  | fuel + 1, array => do
    let token ← getCurrent
    nextToken
    let index ← parseExpression fuel none
    let ok ← expectPeek .rightBracket
    if ok then
      pure (index.map fun i => .indexAccess token array i)
    else
      pure none

/-- `Parser::parse_if_statement` (the `else if` arm `unwrap`s the recursive
result; a plain `else` without `{` aborts the whole statement). -/
def parseIfStatement : Nat → ParserM (Option Statement)
  | 0 => outOfFuelM
  | fuel + 1 => do
    let token ← getCurrent
    let ok ← expectPeek .leftParen
    if ok then do
      nextToken
      let condition ← parseExpression fuel none
      let ok2 ← expectPeek .rightParen
      if ok2 then do
        let ok3 ← expectPeek .leftBrace
        if ok3 then do
          let thenBranch ← parseBlockStatement fuel
          let hasElse ← peekTokenIs .elseKeyword
          if hasElse then do
            nextToken
            let isIf ← peekTokenIs .ifKeyword
            if isIf then do
              nextToken
              let s ← parseIfStatement fuel
              let s ← unwrapO s
              pure (condition.map fun cond =>
                .ifStatement token cond (.blockStatement thenBranch) (some s))
            else do
              let okE ← expectPeek .leftBrace
              if okE then do
                let b ← parseBlockStatement fuel
                pure (condition.map fun cond =>
                  .ifStatement token cond (.blockStatement thenBranch)
                    (some (.blockStatement b)))
              else
                pure none
          else
            pure (condition.map fun cond =>
              .ifStatement token cond (.blockStatement thenBranch) none)
        else
          pure none
      else
        pure none
    else
      pure none

/-- `Parser::parse_do_while_statement`. -/
def parseDoWhileStatement : Nat → ParserM (Option Statement)
  | 0 => outOfFuelM
  | fuel + 1 => do
    let token ← getCurrent
    let ok ← expectPeek .leftBrace
    if ok then do
      let body ← parseBlockStatement fuel
      let ok2 ← expectPeek .rightBrace
      if ok2 then do
        let ok3 ← expectPeek .whileKeyword
        if ok3 then do
          let ok4 ← expectPeek .leftParen
          if ok4 then do
            nextToken
            let condition ← parseExpression fuel none
            let ok5 ← expectPeek .rightParen
            if ok5 then do
              let ok6 ← expectPeek .semicolon
              if ok6 then
                pure (condition.map fun cond =>
                  .doWhileStatement token (.blockStatement body) cond)
              else
                pure none
            else
              pure none
          else
            pure none
        else
          pure none
      else
        pure none
    else
      pure none

/-- `Parser::parse_while_statement`. -/
def parseWhileStatement : Nat → ParserM (Option Statement)
  | 0 => outOfFuelM
  | fuel + 1 => do
    let token ← getCurrent
    let ok ← expectPeek .leftParen
    if ok then do
      nextToken
      let condition ← parseExpression fuel none
      let ok2 ← expectPeek .rightParen
      if ok2 then do
        let ok3 ← expectPeek .leftBrace
        if ok3 then do
          let body ← parseBlockStatement fuel
          pure (condition.map fun cond =>
            .whileStatement token cond (.blockStatement body))
        else
          pure none
      else
        pure none
    else
      pure none

/-- `Parser::parse_for_statement` (each present clause `unwrap`s its
sub-parse). -/
def parseForStatement : Nat → ParserM (Option Statement)
  | 0 => outOfFuelM
  | fuel + 1 => do
    let token ← getCurrent
    let ok ← expectPeek .leftParen
    if ok then do
      nextToken
      let pSemi ← peekTokenIs .semicolon
      let initializer ← if pSemi then
          pure none
        else do
          let s ← parseStatement fuel
          let s ← unwrapO s
          pure (some s)
      nextToken
      let pSemi2 ← peekTokenIs .semicolon
      let condition ← if pSemi2 then
          pure none
        else do
          let e ← parseExpression fuel none
          let e ← unwrapO e
          pure (some e)
      nextToken
      let pRp ← peekTokenIs .rightParen
      let increment ← if pRp then
          pure none
        else do
          let e ← parseExpression fuel none
          let e ← unwrapO e
          pure (some e)
      let ok2 ← expectPeek .rightParen
      if ok2 then do
        let ok3 ← expectPeek .leftBrace
        if ok3 then do
          let body ← parseBlockStatement fuel
          pure (some (.forStatement token initializer condition increment
            (.blockStatement body)))
        else
          pure none
      else
        pure none
    else
      pure none

/-- `Parser::parse_for_of_statement`. -/
def parseForOfStatement : Nat → ParserM (Option Statement)
  | 0 => outOfFuelM
  | fuel + 1 => do
    let token ← getCurrent
    let ok ← expectPeek (.identifier [])
    if ok then do
      let elementVariable ← getIdentOfCurrent
      let ok2 ← expectPeek .ofKeyword
      if ok2 then do
        nextToken
        let iterator ← parseExpression fuel none
        match iterator with
        | none => pure none
        | some it => do
          let ok3 ← expectPeek .leftBrace
          if ok3 then do
            let body ← parseBlockStatement fuel
            pure (some (.forEachStatement token elementVariable it
              (.blockStatement body)))
          else
            pure none
      else
        pure none
    else
      pure none

/-- `Parser::parse_switch_statement` (the scrutinee and each case expression
are `unwrap`ped). -/
def parseSwitchStatement : Nat → ParserM (Option Statement)
  | 0 => outOfFuelM
  | fuel + 1 => do
    let token ← getCurrent
    let ok ← expectPeek .leftParen
    if ok then do
      nextToken
      let e ← parseExpression fuel none
      let expression ← unwrapO e
      let ok2 ← expectPeek .rightParen
      if ok2 then do
        let ok3 ← expectPeek .leftBrace
        if ok3 then do
          let body ← parseSwitchLoop fuel [] none
          match body with
          | none => pure none
          | some (cases, dflt) => do
            let ok4 ← expectPeek .rightBrace
            if ok4 then
              pure (some (.switchStatement token expression cases dflt))
            else
              pure none
        else
          pure none
      else
        pure none
    else
      pure none

/-- The case/default loop of `Parser::parse_switch_statement`. -/
def parseSwitchLoop : Nat → List (Expression × List Statement) →
    Option (List Statement) →
    ParserM (Option (List (Expression × List Statement) ×
      Option (List Statement)))
  | 0, _, _ => outOfFuelM
  | fuel + 1, cases, dflt => do
    let rb ← peekTokenIs .rightBrace
    if rb then
      pure (some (cases, dflt))
    else do
      let p ← getPeek
      match p.type with
      | .caseKeyword => do
        nextToken
        nextToken
        let ce ← parseExpression fuel none
        let caseExpr ← unwrapO ce
        let okc ← expectPeek .colon
        if okc then do
          let statements ← parseCaseStatements fuel []
          parseSwitchLoop fuel (cases ++ [(caseExpr, statements)]) dflt
        else
          pure none
      | .defaultKeyword => do
        nextToken
        let okc ← expectPeek .colon
        if okc then do
          let statements ← parseCaseStatements fuel []
          parseSwitchLoop fuel cases (some statements)
        else
          pure none
      | _ => do
        pushErr (.unexpectedSwitchToken p.type)
        pure none

/-- The statement loop of a `case`/`default` body: consume statements until
the next `case`, `default` or `}`. -/
def parseCaseStatements : Nat → List Statement → ParserM (List Statement)
  | 0, _ => outOfFuelM
  | fuel + 1, statements => do
    let a ← peekTokenIs .caseKeyword
    let b ← peekTokenIs .defaultKeyword
    let c ← peekTokenIs .rightBrace
    if !a && !b && !c then do
      let st ← parseStatement fuel
      let statements := match st with
        | some s => statements ++ [s]
        | none => statements
      nextToken
      parseCaseStatements fuel statements
    else
      pure statements

/-- `Parser::parse_enum_declaration`.  The Rust function's final expression
is `variants`, of type `Vec<String>`, where `Option<Statement>` is required:
rustc rejects the crate at this point and no `EnumDeclaration` node is ever
constructed.  The ill-typed tail is modelled as producing no statement; it
is in any case unreachable from lexer output, because
`expect_peek(TokenType::Identifier(String::new()))` compares payloads and
the lexer never emits an empty identifier. -/
def parseEnumDeclaration : Nat → ParserM (Option Statement)
  | 0 => outOfFuelM
  | fuel + 1 => do
    let _token ← getCurrent
    let ok ← expectPeek (.identifier [])
    if ok then do
      let _name ← getIdentOfCurrent
      let ok2 ← expectPeek .leftBrace
      if ok2 then do
        let variants ← parseEnumVariantsLoop fuel []
        match variants with
        | none => pure none
        | some _vs => pure none
      else
        pure none
    else
      pure none

/-- The variant loop of `Parser::parse_enum_declaration`. -/
def parseEnumVariantsLoop : Nat → List Str → ParserM (Option (List Str))
  | 0, _ => outOfFuelM
  | fuel + 1, variants => do
    let rb ← peekTokenIs .rightBrace
    if rb then
      pure (some variants)
    else do
      let ok ← expectPeek (.identifier [])
      if ok then do
        let v ← getIdentOfCurrent
        let variants := variants ++ [v]
        let c ← peekTokenIs .comma
        if c then do
          nextToken
          parseEnumVariantsLoop fuel variants
        else
          pure (some variants)
      else
        pure none

/-- `Parser::parse_object_declaration`. -/
def parseObjectDeclaration : Nat → ParserM (Option Statement)
  | 0 => outOfFuelM
  | fuel + 1 => do
    let token ← getCurrent
    let pIdent ← peekTokenIs (.identifier [])
    let name ← if pIdent then do
        nextToken
        let i ← getIdentOfCurrent
        pure (some i)
      else
        pure none
    let ok ← expectPeek .equals
    if ok then do
      nextToken
      let ok2 ← expectPeek .leftBrace
      if ok2 then do
        let properties ← parseObjectPropertiesLoop fuel []
        match properties with
        | none => pure none
        | some props => do
          let ok3 ← expectPeek .rightBrace
          if ok3 then do
            let ok4 ← expectPeek .semicolon
            if ok4 then
              pure (some (.objectDeclaration token (name.getD []) props))
            else
              pure none
          else
            pure none
      else
        pure none
    else
      pure none

/-- The property loop of `Parser::parse_object_declaration`. -/
def parseObjectPropertiesLoop : Nat → List (Str × Expression) →
    ParserM (Option (List (Str × Expression)))
  | 0, _ => outOfFuelM
  | fuel + 1, properties => do
    let rb ← peekTokenIs .rightBrace
    if rb then
      pure (some properties)
    else do
      let ok ← expectPeek (.identifier [])
      if ok then do
        let key ← getIdentOfCurrent
        let ok2 ← expectPeek .colon
        if ok2 then do
          nextToken
          let value ← parseExpression fuel none
          match value with
          | none => pure none
          | some v => do
            let properties := properties ++ [(key, v)]
            let c ← peekTokenIs .comma
            if c then do
              nextToken
              parseObjectPropertiesLoop fuel properties
            else
              pure (some properties)
        else
          pure none
      else
        pure none

/-- `Parser::parse_class_declaration`. -/
def parseClassDeclaration : Nat → ParserM (Option Statement)
  | 0 => outOfFuelM
  | fuel + 1 => do
    let token ← getCurrent
    let ok ← expectPeek (.identifier [])
    if ok then do
      let name ← getIdentOfCurrent
      let hasExtends ← peekTokenIs .extendsKeyword
      let superclass? ← if hasExtends then do
          nextToken
          let ok2 ← expectPeek (.identifier [])
          if ok2 then do
            let s ← getIdentOfCurrent
            pure (some (some s))
          else
            pure (none : Option (Option Str))
        else
          pure (some none)
      match superclass? with
      | none => pure none
      | some superclass => do
        let hasImplements ← peekTokenIs .implementsKeyword
        let interfaces? ← if hasImplements then do
            nextToken
            parseClassInterfacesLoop fuel []
          else
            pure (some [])
        match interfaces? with
        | none => pure none
        | some interfaces => do
          let ok3 ← expectPeek .leftBrace
          if ok3 then do
            let members ← parseClassMembers fuel
            let ok4 ← expectPeek .rightBrace
            if ok4 then
              pure (some (.classDeclaration token name superclass interfaces
                members))
            else
              pure none
          else
            pure none
    else
      pure none

/-- The `implements` list loop of `Parser::parse_class_declaration` (a failed
identifier expectation aborts the whole declaration). -/
def parseClassInterfacesLoop : Nat → List Str → ParserM (Option (List Str))
  | 0, _ => outOfFuelM
  | fuel + 1, interfaces => do
    let ok ← expectPeek (.identifier [])
    if ok then do
      let i ← getIdentOfCurrent
      let interfaces := interfaces ++ [i]
      let c ← peekTokenIs .comma
      if c then do
        nextToken
        parseClassInterfacesLoop fuel interfaces
      else
        pure (some interfaces)
    else
      pure none

/-- `Parser::parse_class_members` (with member-granularity recovery). -/
def parseClassMembers : Nat → ParserM (List ClassMember)
  | 0 => outOfFuelM
  | fuel + 1 => parseClassMembersLoop fuel []

/-- The loop of `Parser::parse_class_members`. -/
def parseClassMembersLoop : Nat → List ClassMember → ParserM (List ClassMember)
  | 0, _ => outOfFuelM
  | fuel + 1, members => do
    let rb ← peekTokenIs .rightBrace
    if rb then
      pure members
    else do
      let member ← parseClassMember fuel
      match member with
      | some m => parseClassMembersLoop fuel (members ++ [m])
      | none => do
        skipMemberSync fuel
        parseClassMembersLoop fuel members

/-- `Parser::parse_class_member`. -/
def parseClassMember : Nat → ParserM (Option ClassMember)
  | 0 => outOfFuelM
  | fuel + 1 => do
    let visibility ← parseVisibility
    let isStaticPeek ← peekTokenIs .staticKeyword
    let isStatic ← if isStaticPeek then do
        nextToken
        pure true
      else
        pure false
    let isFn ← peekTokenIs .functionKeyword
    if isFn then
      parseMethodDeclaration fuel visibility isStatic
    else
      parseFieldDeclaration fuel visibility isStatic

/-- `Parser::parse_field_declaration` (the optional leading type is detected
by pattern-matching the peek token against `Identifier(_)`, not by
equality). -/
def parseFieldDeclaration : Nat → Visibility → Bool →
    ParserM (Option ClassMember)
  | 0, _, _ => outOfFuelM
  | fuel + 1, visibility, isStatic => do
    let token ← getCurrent
    let p ← getPeek
    let typeName ← match p.type with
      | .identifier _ => do
        nextToken
        let i ← getIdentOfCurrent
        pure (some i)
      | _ => pure none
    let ok ← expectPeek (.identifier [])
    if ok then do
      let name ← getIdentOfCurrent
      let hasInit ← peekTokenIs .equals
      let value ← if hasInit then do
          nextToken
          parseExpression fuel none
        else
          pure none
      let ok2 ← expectPeek .semicolon
      if ok2 then
        pure (some (.field token name typeName value visibility isStatic))
      else
        pure none
    else
      pure none

/-- `Parser::parse_method_declaration`. -/
def parseMethodDeclaration : Nat → Visibility → Bool →
    ParserM (Option ClassMember)
  | 0, _, _ => outOfFuelM
  | fuel + 1, visibility, isStatic => do
    let token ← getCurrent
    nextToken
    let ok ← expectPeek (.identifier [])
    if ok then do
      let name ← getIdentOfCurrent
      let ok2 ← expectPeek .leftParen
      if ok2 then do
        let parameters ← parseFunctionParameters fuel
        let ok3 ← expectPeek .rightParen
        if ok3 then do
          let hasArrow ← peekTokenIs .equalsGreaterThan
          let returnType? ← if hasArrow then do
              nextToken
              let ok4 ← expectPeek (.identifier [])
              if ok4 then do
                let r ← getIdentOfCurrent
                pure (some (some r))
              else
                pure (none : Option (Option Str))
            else
              pure (some none)
          match returnType? with
          | none => pure none
          | some returnType => do
            let ok5 ← expectPeek .leftBrace
            if ok5 then do
              let body ← parseBlockStatement fuel
              let ok6 ← expectPeek .rightBrace
              if ok6 then
                pure (some (.method token name parameters body returnType
                  visibility isStatic))
              else
                pure none
            else
              pure none
        else
          pure none
      else
        pure none
    else
      pure none

/-- `Parser::parse_interface_declaration`. -/
def parseInterfaceDeclaration : Nat → ParserM (Option Statement)
  | 0 => outOfFuelM
  | fuel + 1 => do
    let token ← getCurrent
    let ok ← expectPeek (.identifier [])
    if ok then do
      let name ← getIdentOfCurrent
      let ok2 ← expectPeek .leftBrace
      if ok2 then do
        let members ← parseInterfaceMembers fuel
        let ok3 ← expectPeek .rightBrace
        if ok3 then
          pure (some (.interfaceDeclaration token name members))
        else
          pure none
      else
        pure none
    else
      pure none

/-- `Parser::parse_interface_members`. -/
def parseInterfaceMembers : Nat → ParserM (List InterfaceMember)
  | 0 => outOfFuelM
  | fuel + 1 => parseInterfaceMembersLoop fuel []

/-- The loop of `Parser::parse_interface_members`. -/
def parseInterfaceMembersLoop : Nat → List InterfaceMember →
    ParserM (List InterfaceMember)
  | 0, _ => outOfFuelM
  | fuel + 1, members => do
    let rb ← peekTokenIs .rightBrace
    if rb then
      pure members
    else do
      let member ← parseInterfaceMember fuel
      match member with
      | some m => parseInterfaceMembersLoop fuel (members ++ [m])
      | none => do
        skipMemberSync fuel
        parseInterfaceMembersLoop fuel members

/-- `Parser::parse_interface_member` (method parsing with visibility/static
discarded; a `Field` result would hit `unreachable!`). -/
def parseInterfaceMember : Nat → ParserM (Option InterfaceMember)
  | 0 => outOfFuelM
  | fuel + 1 => do
    let m ← parseMethodDeclaration fuel .pub false
    match m with
    | none => pure none
    | some (.method token name parameters _body returnType _v _s) =>
      pure (some (.method token name parameters returnType))
    | some (.field _ _ _ _ _ _) => unreachableM

/-- `Parser::parse_import_declaration`. -/
def parseImportDeclaration : Nat → ParserM (Option Statement)
  | 0 => outOfFuelM
  | fuel + 1 => do
    let token ← getCurrent
    let isBrace ← peekTokenIs .leftBrace
    let imports? ← if isBrace then do
        nextToken
        let named ← parseImportNamedLoop fuel []
        match named with
        | none => pure (none : Option (List ImportSpecifier))
        | some imports => do
          let ok ← expectPeek .rightBrace
          if ok then pure (some imports) else pure none
      else do
        let ok ← expectPeek (.identifier [])
        if ok then do
          let i ← getIdentOfCurrent
          pure (some [ImportSpecifier.default i])
        else do
          peekError (.identifier [])
          pure none
    match imports? with
    | none => pure none
    | some imports => do
      let ok2 ← expectPeek .fromKeyword
      if ok2 then do
        let ok3 ← expectPeek (.string [])
        if ok3 then do
          let c ← getCurrent
          match c.type with
          | .string path => do
            let ok4 ← expectPeek .semicolon
            if ok4 then
              pure (some (.importDeclaration token path imports))
            else
              pure none
          | _ => unreachableM
        else
          pure none
      else
        pure none

/-- The named-import loop of `Parser::parse_import_declaration`. -/
def parseImportNamedLoop : Nat → List ImportSpecifier →
    ParserM (Option (List ImportSpecifier))
  | 0, _ => outOfFuelM
  | fuel + 1, imports => do
    let rb ← peekTokenIs .rightBrace
    if rb then
      pure (some imports)
    else do
      let ok ← expectPeek (.identifier [])
      if ok then do
        let i ← getIdentOfCurrent
        let imports := imports ++ [ImportSpecifier.named i]
        let c ← peekTokenIs .comma
        if c then do
          nextToken
          parseImportNamedLoop fuel imports
        else
          pure (some imports)
      else
        pure none

/-- `Parser::parse_export_declaration`. -/
def parseExportDeclaration : Nat → ParserM (Option Statement)
  | 0 => outOfFuelM
  | fuel + 1 => do
    let token ← getCurrent
    let isDefault ← peekTokenIs .defaultKeyword
    let specifiers? ← if isDefault then do
        nextToken
        pure (some [ExportSpecifier.default])
      else do
        let isBrace ← peekTokenIs .leftBrace
        if isBrace then do
          nextToken
          let named ← parseExportNamedLoop fuel []
          match named with
          | none => pure (none : Option (List ExportSpecifier))
          | some specifiers => do
            let ok ← expectPeek .rightBrace
            if ok then pure (some specifiers) else pure none
        else do
          peekError .defaultKeyword
          pure none
    match specifiers? with
    | none => pure none
    | some specifiers => do
      let ok2 ← expectPeek .semicolon
      if ok2 then
        pure (some (.exportDeclaration token specifiers))
      else
        pure none

/-- The named-export loop of `Parser::parse_export_declaration`. -/
def parseExportNamedLoop : Nat → List ExportSpecifier →
    ParserM (Option (List ExportSpecifier))
  | 0, _ => outOfFuelM
  | fuel + 1, specifiers => do
    let rb ← peekTokenIs .rightBrace
    if rb then
      pure (some specifiers)
    else do
      let ok ← expectPeek (.identifier [])
      if ok then do
        let i ← getIdentOfCurrent
        let specifiers := specifiers ++ [ExportSpecifier.named i]
        let c ← peekTokenIs .comma
        if c then do
          nextToken
          parseExportNamedLoop fuel specifiers
        else
          pure (some specifiers)
      else
        pure none

/-- `Parser::parse_block_statement`: consume the opening token, then collect
statements until `}` or end-of-input. -/
def parseBlockStatement : Nat → ParserM (List Statement)
  | 0 => outOfFuelM
  | fuel + 1 => do
    nextToken
    parseBlockStatementLoop fuel []

/-- The loop of `Parser::parse_block_statement`. -/
def parseBlockStatementLoop : Nat → List Statement → ParserM (List Statement)
  | 0, _ => outOfFuelM
  | fuel + 1, statements => do
    let rb ← currentTokenIs .rightBrace
    let e ← currentTokenIs .eof
    if !rb && !e then do
      let st ← parseStatement fuel
      let statements := match st with
        | some s => statements ++ [s]
        | none => statements
      nextToken
      parseBlockStatementLoop fuel statements
    else
      pure statements

/-- Modelled from the spec: `parse_block_expression` is called at
`src/parser.rs:374` for a `{` that does not look like a dict literal, but no
such method exists anywhere in the repository (rustc rejects the call), so
its behaviour must be modelled.  The spec only says such a `{` "is treated
as a block expression"; since the `Expression` model of `src/ast.rs` has no
block variant, the model conservatively produces no expression and leaves
the state unchanged. -/
def parseBlockExpression : Nat → ParserM (Option Expression)
  | 0 => outOfFuelM
  | _fuel + 1 => pure none

end

end Parser

namespace Parser

/-- `Parser::parse_program` (dispatches to the fueled statement loop). -/
def parseProgram (fuel : Nat) : ParserM (List Statement) :=
  parseProgramLoop fuel []

/-- The cursor state `Parser::new` starts from: both cursor slots hold the
dummy `Token::new(EOF, 0, 0)` and `lexer.tokens` is still full. -/
def initialPState (toks : List Token) : PState :=
  { currentToken := Token.new .eof 0 0
    peekToken := Token.new .eof 0 0
    tokens := toks
    errors := [] }

/-- The two `next_token` calls of `Parser::new`. -/
def newShift : ParserM Unit := do
  nextToken
  nextToken

/-- Unindexed observable outcome of a whole parse. -/
inductive ProgOut where
  /-- `parse_program` returned: the statements and the recorded errors. -/
  | ok (statements : List Statement) (errors : List ParseError)
  /-- A Rust panic. -/
  | fatal (k : Fatal)
  /-- Fuel exhausted. -/
  | outOfFuel

/-- Forget the suffix certificate of a finished `parse_program` run. -/
def progOutOf {s₀ : PState} : PRes s₀ (List Statement) → ProgOut
  | .ok statements s _ => .ok statements s.errors
  | .fatal k => .fatal k
  | .outOfFuel => .outOfFuel

/-- `Parser::new` on a lexer holding `toks`, then `parse_program`. -/
def parseProgramFromTokens (toks : List Token) (fuel : Nat) : ProgOut :=
  match newShift (initialPState toks) with
  | .ok _ s _ => progOutOf (parseProgram fuel s)
  | .fatal k => .fatal k
  | .outOfFuel => .outOfFuel

end Parser

/-- The full front end as exercised by `src/main.rs` and the tests:
`Lexer::new`, `Lexer::tokenize`, `Parser::new`, `Parser::parse_program`.
`none` when the lexer already panicked or ran out of fuel. -/
def frontendF (source : Str) (lexFuel parseFuel : Nat) : Option Parser.ProgOut :=
  match Lexer.tokenizeF source lexFuel with
  | .done st => some (Parser.parseProgramFromTokens st.tokens parseFuel)
  | _ => none

namespace Parser

/-- Observable outcome of `Parser::new` followed by one `parse_statement`
call on a lexer holding `toks`. -/
inductive StmtOut where
  | ok (stmt : Option Statement) (errors : List ParseError)
  | fatal (k : Fatal)
  | outOfFuel

/-- Run `Parser::new` then a single `Parser::parse_statement`. -/
def observeStatement (toks : List Token) (fuel : Nat) : StmtOut :=
  match newShift (initialPState toks) with
  | .ok _ s _ =>
    match parseStatement fuel s with
    | .ok st s' _ => .ok st s'.errors
    | .fatal k => .fatal k
    | .outOfFuel => .outOfFuel
  | .fatal k => .fatal k
  | .outOfFuel => .outOfFuel

/-- Observable outcome of `Parser::new` followed by one
`parse_expression(None)` call on a lexer holding `toks`. -/
inductive ExprOut where
  | ok (expr : Option Expression) (errors : List ParseError)
  | fatal (k : Fatal)
  | outOfFuel

/-- Run `Parser::new` then a single `Parser::parse_expression(None)`. -/
def observeExpression (toks : List Token) (fuel : Nat) : ExprOut :=
  match newShift (initialPState toks) with
  | .ok _ s _ =>
    match parseExpression fuel none s with
    | .ok e s' _ => .ok e s'.errors
    | .fatal k => .fatal k
    | .outOfFuel => .outOfFuel
  | .fatal k => .fatal k
  | .outOfFuel => .outOfFuel

end Parser

/-- The token sequence a terminating `tokenize` run produces (empty when the
run panics or the fuel is exhausted). -/
def tokensOfLex (source : Str) (fuel : Nat) : List Token :=
  match Lexer.tokenizeF source fuel with
  | .done st => st.tokens
  | _ => []

/-- The lexical errors a terminating `tokenize` run records. -/
def lexErrorsOf (source : Str) (fuel : Nat) : List LexerError :=
  match Lexer.tokenizeF source fuel with
  | .done st => st.errors
  | _ => []

/-! ## Claim theorems -/

/-- Does an expression-parse outcome have the right-nested shape
`Assignment(ident, Assignment(_, _))`? -/
def assignmentRightNested : Parser.ExprOut → Bool
  | .ok (some (.assignment _ (.identifier _ _) (.assignment _ _ _))) _ => true
  | _ => false

/-- The token sequence of `<ident> = <ident> = <ident> ;` (followed by
end-of-input), at fixed positions. -/
def assignChainToks (a b c : Str) : List Token :=
  [Token.new (.identifier a) 1 1, Token.new .equals 1 3,
   Token.new (.identifier b) 1 5, Token.new .equals 1 7,
   Token.new (.identifier c) 1 9, Token.new .semicolon 1 10,
   Token.new .eof 1 11]

/-- C1: refuted on the code (code bug).  The claim asserts `Lexer::new`
followed by `tokenize` terminates without unrecoverable failure on every
input, including the empty string; but `Lexer::new("")` panics: the
constructor's `consume` call slices `source[1..]` on a zero-length string
(byte index 1 out of bounds).  -/
theorem lexerNew_empty_input_panics :
    Lexer.new [] = none ∧ ∀ fuel, Lexer.tokenizeF [] fuel = .fatal :=
  ⟨rfl, fun _ => rfl⟩

/-- C4: refuted on the code (code bug).  Because `Lexer::new` consumes the
first source character before scanning starts, tokenizing `"1+1"` yields
`[Plus, Int(1), EOF]` (not `[Int(1), Plus, Int(1), EOF]`), and tokenizing
`"1.5"` yields `[Dot, Int(5), EOF]` (not a single `Float(1.5)`). -/
theorem tokenize_drops_first_char_of_literals :
    tokensOfLex "1+1".toList 10 =
      [Token.new .plus 1 2, Token.new (.int 1) 1 4, Token.new .eof 1 4] ∧
    tokensOfLex "1.5".toList 10 =
      [Token.new .dot 1 2, Token.new (.int 5) 1 4, Token.new .eof 1 4] :=
  ⟨rfl, rfl⟩

/-- C7: refuted on the code (code bug).  For the well-formed declaration
`enum ACTION { RUN, WALK }`, `parse_statement` dispatches to
`parse_enum_declaration`, whose `expect_peek(TokenType::Identifier(String::new()))`
compares payloads and therefore rejects `Identifier("ACTION")`: the parser
records an expected-token error and returns no statement.  (Independently,
the function's final expression returns `variants : Vec<String>` where
`Option<Statement>` is required, so no `EnumDeclaration` is ever
constructed.) -/
theorem enum_declaration_never_parsed :
    Parser.observeStatement
      [Token.new .enumKeyword 1 1, Token.new (.identifier "ACTION".toList) 1 6,
       Token.new .leftBrace 1 13, Token.new (.identifier "RUN".toList) 1 15,
       Token.new .comma 1 18, Token.new (.identifier "WALK".toList) 1 20,
       Token.new .rightBrace 1 25, Token.new .eof 1 26] 30
    = .ok none [.expected (.identifier []) (.identifier "ACTION".toList)] :=
  rfl

/-- C8: refuted on the code (code bug).  On the claimed for-each shape
`for ( e of a ) { e; }` the dispatch condition is false (peek is `(`,
and `peek_token_is(Identifier(String::new()))` compares payloads anyway), so
`parse_for_statement` runs and panics on `parse_expression(None).unwrap()`
at the `of` clause: no `ForEachStatement` is produced. -/
theorem for_of_shape_panics_in_classic_for :
    Parser.observeStatement
      [Token.new .forKeyword 1 5, Token.new .leftParen 1 5,
       Token.new (.identifier "e".toList) 1 7, Token.new .ofKeyword 1 10,
       Token.new (.identifier "a".toList) 1 12, Token.new .rightParen 1 12,
       Token.new .leftBrace 1 14, Token.new (.identifier "e".toList) 1 17,
       Token.new .semicolon 1 17, Token.new .rightBrace 1 19,
       Token.new .eof 1 20] 50
    = .fatal .unwrapNone :=
  rfl

/-- C3: refuted on the code (code bug).  For the source `"int x = 5;"`, the
lexer (having consumed the leading `i` in `Lexer::new`) emits
`Identifier("nt")` instead of the `int` keyword, so no
`VariableDeclaration` can be dispatched; the subsequent `parse_program`
run panics in `next_token` (`Vec::remove(0)` on the emptied token vector)
instead of returning statements. -/
theorem frontend_int_decl_panics :
    tokensOfLex "int x = 5;".toList 60 =
      [Token.new (.identifier "nt".toList) 1 4,
       Token.new (.identifier "x".toList) 1 6,
       Token.new .equals 1 7, Token.new (.int 5) 1 10,
       Token.new .semicolon 1 10, Token.new .eof 1 11] ∧
    frontendF "int x = 5;".toList 60 60 = some (.fatal .removeEmpty) := by
  refine ⟨rfl, ?_⟩
  have hlex : Lexer.tokenizeF "int x = 5;".toList 60 = .done
      ⟨"int x = 5;".toList, none, 10, 1, 11,
       [Token.new (.identifier "nt".toList) 1 4,
        Token.new (.identifier "x".toList) 1 6,
        Token.new .equals 1 7, Token.new (.int 5) 1 10,
        Token.new .semicolon 1 10, Token.new .eof 1 11], []⟩ := rfl
  show (match Lexer.tokenizeF "int x = 5;".toList 60 with
    | .done st => some (Parser.parseProgramFromTokens st.tokens 60)
    | _ => none) = some (.fatal .removeEmpty)
  rw [hlex]
  rfl

/-- C5: refuted on the code (code bug).  For the source `"int x = 5\n"`
(missing semicolon) the parse does record an expected-token diagnostic, but
`parse_program` then panics in `next_token` during the recovery scan
(`Vec::remove(0)` on the emptied token vector) — it does not return. -/
theorem frontend_missing_semicolon_panics :
    tokensOfLex "int x = 5\n".toList 60 =
      [Token.new (.identifier "nt".toList) 1 4,
       Token.new (.identifier "x".toList) 1 6,
       Token.new .equals 1 7, Token.new (.int 5) 1 10,
       Token.new .eof 2 2] ∧
    frontendF "int x = 5\n".toList 60 60 = some (.fatal .removeEmpty) := by
  refine ⟨rfl, ?_⟩
  have hlex : Lexer.tokenizeF "int x = 5\n".toList 60 = .done
      ⟨"int x = 5\n".toList, none, 10, 2, 2,
       [Token.new (.identifier "nt".toList) 1 4,
        Token.new (.identifier "x".toList) 1 6,
        Token.new .equals 1 7, Token.new (.int 5) 1 10,
        Token.new .eof 2 2], []⟩ := rfl
  show (match Lexer.tokenizeF "int x = 5\n".toList 60 with
    | .done st => some (Parser.parseProgramFromTokens st.tokens 60)
    | _ => none) = some (.fatal .removeEmpty)
  rw [hlex]
  rfl

/-- C6 counterexample: on `a = b = c` the expression parser yields the
left-nested `Assignment(Assignment(a, b), c)` — not the claimed right-nested
`Assignment(a, Assignment(b, c))`.  The recursion at assignment precedence 1
stops at the next `=` because the climbing loop requires the peek precedence
to strictly exceed the minimum (`1 < 1` fails), so the outer loop
re-associates to the left. -/
theorem assignment_right_assoc_cex :
    Parser.observeExpression
        (assignChainToks "a".toList "b".toList "c".toList) 20 =
      .ok (some (.assignment (Token.new .equals 1 7)
        (.assignment (Token.new .equals 1 3)
          (.identifier (Token.new (.identifier "a".toList) 1 1) "a".toList)
          (.identifier (Token.new (.identifier "b".toList) 1 5) "b".toList))
        (.identifier (Token.new (.identifier "c".toList) 1 9) "c".toList))) []
    ∧ assignmentRightNested
        (Parser.observeExpression
          (assignChainToks "a".toList "b".toList "c".toList) 20) = false :=
  ⟨rfl, rfl⟩

/-- C6 amended: assignment is left-associative.  For all identifier names
`a b c`, parsing the expression shape `<ident> = <ident> = <ident>` yields
`Assignment(left = Assignment(a, b), right = c)`. -/
theorem assignment_left_associative (a b c : Str) :
    Parser.observeExpression (assignChainToks a b c) 20 =
      .ok (some (.assignment (Token.new .equals 1 7)
        (.assignment (Token.new .equals 1 3)
          (.identifier (Token.new (.identifier a) 1 1) a)
          (.identifier (Token.new (.identifier b) 1 5) b))
        (.identifier (Token.new (.identifier c) 1 9) c))) [] :=
  rfl

/-- The lexer state reached after `Lexer::new` on the source `x"abc`
(whose unterminated string literal starts at the second character), with an
arbitrary error accumulator. -/
def untermState (errs : List LexerError) : LexState :=
  ⟨"x\"abc".toList, some '"', 1, 1, 2, [], errs⟩

/-- From `untermState` the tokenize loop never finishes: the failed
string-regex match records an error but consumes nothing, so every iteration
sees the same `"` again (with one more copy of the error). -/
theorem untermState_never_done :
    ∀ fuel errs, Lexer.runLex fuel (untermState errs) = .outOfFuel := by
  intro fuel
  induction fuel with
  | zero => intro _; rfl
  | succ n ih =>
    intro errs
    show Lexer.runLex n (untermState (errs ++ [⟨.unterminatedString, 1, 2⟩]))
      = .outOfFuel
    exact ih _

/-- C9: refuted on the code (code bug).  On the input `x"abc` (an opening
quote with no matching close), `Lexer::string` records the
"Unterminated string literal" error but does not consume the quote, so
`tokenize` loops forever: it never terminates and never appends the
end-of-input token, contrary to the claim that lexing continues past the
bad token. -/
theorem tokenize_unterminated_string_diverges :
    ∀ fuel, Lexer.tokenizeF "x\"abc".toList fuel = .outOfFuel := by
  intro fuel
  show Lexer.runLex fuel (untermState []) = .outOfFuel
  exact untermState_never_done fuel []

/-! ## C2: the parser can never return normally -/

/-- Does the token list end in end-of-input, with end-of-input nowhere
else?  (The shape of every `tokenize` output.) -/
def eofLastOnly : List Token → Bool
  | [] => false
  | [t] => t.type.beq .eof
  | t :: rest => !(t.type.beq .eof) && eofLastOnly rest

/-- Unfolding of `>>=` for `ParserM` at a state. -/
theorem ParserM.bind_apply (m : ParserM α) (f : α → ParserM β) (s : PState) :
    (m >>= f) s =
      match m s with
      | .ok a s₁ h₁ =>
        (match f a s₁ with
          | .ok b s₂ h₂ => .ok b s₂ (h₂.trans h₁)
          | .fatal k => .fatal k
          | .outOfFuel => .outOfFuel)
      | .fatal k => .fatal k
      | .outOfFuel => .outOfFuel := rfl

/-- `current_token_is` evaluated at a state. -/
theorem Parser.currentTokenIs_apply (tt : TokenType) (s : PState) :
    Parser.currentTokenIs tt s =
      .ok (s.currentToken.type.beq tt) s (List.suffix_refl _) := rfl

/-- In a well-formed token list, a token with at least two successors is not
end-of-input. -/
theorem eofLastOnly_suffix :
    ∀ (L : List Token), eofLastOnly L = true →
      ∀ c p r, (c :: p :: r) <:+ L → c.type.beq .eof = false := by
  intro L
  induction L with
  | nil =>
    intro _ c p r hs
    rw [List.suffix_nil] at hs
    cases hs
  | cons t rest ih =>
    intro h c p r hs
    rcases List.suffix_cons_iff.mp hs with heq | hs'
    · injection heq with h1 h2
      subst h1
      subst h2
      simp only [eofLastOnly, Bool.and_eq_true, Bool.not_eq_true'] at h
      exact h.1
    · have hrest : eofLastOnly rest = true := by
        cases rest with
        | nil => rw [List.suffix_nil] at hs'; cases hs'
        | cons u us =>
          simp only [eofLastOnly, Bool.and_eq_true] at h
          exact h.2
      exact ih hrest c p r hs'

/-- The statement loop of `parse_program` can never return normally while
the cursor's view is a suffix (of length ≥ 2, which it always is) of a
well-formed token list: its exit condition `current_token == EOF` can never
hold, because end-of-input is the last token and at least `peek_token` sits
behind `current_token`. -/
theorem parseProgramLoop_ne_ok (L : List Token) (hwf : eofLastOnly L = true) :
    ∀ fuel acc s, toksOf s <:+ L →
      ∀ r s' hsuf, Parser.parseProgramLoop fuel acc s ≠ .ok r s' hsuf := by
  intro fuel
  induction fuel with
  | zero =>
    intro acc s _ r s' hsuf hEq
    exact PRes.noConfusion hEq
  | succ n ih =>
    intro acc s hs r s' hsuf hEq
    have hne : s.currentToken.type.beq .eof = false :=
      eofLastOnly_suffix L hwf s.currentToken s.peekToken s.tokens hs
    simp only [Parser.parseProgramLoop, ParserM.bind_apply,
      Parser.currentTokenIs_apply, hne, Bool.false_eq_true, if_false] at hEq
    split at hEq
    · rename_i v₁ sF hF heq₁
      split at heq₁
      · rename_i stmtOpt s₁ h₁ _heq₂
        split at heq₁
        · rename_i v₂ sM hM heq₃
          split at heq₃
          · rename_i u s₂ h₂ _heq₄
            split at heq₃
            · rename_i r₃ s₃ h₃ heq₅
              exact ih _ s₂ ((h₂.trans h₁).trans hs) _ _ _ heq₅
            · exact PRes.noConfusion heq₃
            · exact PRes.noConfusion heq₃
          · exact PRes.noConfusion heq₃
          · exact PRes.noConfusion heq₃
        · exact PRes.noConfusion heq₁
        · exact PRes.noConfusion heq₁
      · exact PRes.noConfusion heq₁
      · exact PRes.noConfusion heq₁
    · exact PRes.noConfusion hEq
    · exact PRes.noConfusion hEq

/-- After `Parser::new` on a token list with at least two tokens, the cursor
holds the first two tokens and the rest remains queued. -/
theorem parseProgramFromTokens_cons (t0 t1 : Token) (ts : List Token)
    (fuel : Nat) :
    Parser.parseProgramFromTokens (t0 :: t1 :: ts) fuel =
      Parser.progOutOf (Parser.parseProgram fuel ⟨t0, t1, ts, []⟩) := rfl

/-- C2: confirmed.  For every token list of the shape `tokenize` produces
(ending in exactly one end-of-input token), `Parser::new` followed by
`parse_program` never returns normally, whatever the fuel: before
`current_token` can become end-of-input, `next_token` must call
`lexer.tokens.remove(0)` on an already-empty vector (`Parser::new` removes
two tokens up front and every `next_token` removes one more).  For a
whitespace-only source, whose token list is just the end-of-input token, the
out-of-bounds panic happens already inside `Parser::new`, whatever that
token's position. -/
theorem parse_program_never_returns_normally :
    (∀ toks, eofLastOnly toks = true → ∀ fuel stmts errs,
        Parser.parseProgramFromTokens toks fuel ≠ .ok stmts errs)
    ∧ (∀ t fuel, Parser.parseProgramFromTokens [t] fuel
        = .fatal .removeEmpty) := by
  constructor
  · intro toks hwf fuel stmts errs hEq
    match toks, hwf with
    | [], hwf => exact Bool.noConfusion hwf
    | [t], _ => rw [show Parser.parseProgramFromTokens [t] fuel
        = .fatal .removeEmpty from rfl] at hEq; exact Parser.ProgOut.noConfusion hEq
    | t0 :: t1 :: ts, hwf =>
      rw [parseProgramFromTokens_cons] at hEq
      unfold Parser.progOutOf at hEq
      split at hEq
      · rename_i statements s' h' heq
        exact parseProgramLoop_ne_ok (t0 :: t1 :: ts) hwf fuel [] ⟨t0, t1, ts, []⟩
          (List.suffix_refl _) statements s' h' heq
      · exact Parser.ProgOut.noConfusion hEq
      · exact Parser.ProgOut.noConfusion hEq
  · intro t fuel
    rfl

/-- Witness for C2 at a concrete well-formed token list. -/
theorem parse_program_never_returns_normally_witness :
    eofLastOnly [Token.new (.identifier ['x']) 1 1, Token.new .eof 1 2] = true
    ∧ Parser.parseProgramFromTokens
        [Token.new (.identifier ['x']) 1 1, Token.new .eof 1 2] 10
      ≠ .ok [] [] :=
  ⟨rfl, parse_program_never_returns_normally.1
    [Token.new (.identifier ['x']) 1 1, Token.new .eof 1 2] rfl 10 [] []⟩

/-! ## C10: token position monotonicity -/

/-- Lexicographic order on (line, column) positions. -/
def posLe (p q : Nat × Nat) : Prop :=
  p.1 < q.1 ∨ (p.1 = q.1 ∧ p.2 ≤ q.2)

instance (p q : Nat × Nat) : Decidable (posLe p q) := by
  unfold posLe; infer_instance

theorem posLe_refl (p : Nat × Nat) : posLe p p := Or.inr ⟨rfl, Nat.le_refl _⟩

theorem posLe_trans {p q r : Nat × Nat} (h₁ : posLe p q) (h₂ : posLe q r) :
    posLe p r := by
  rcases h₁ with h₁ | ⟨e₁, l₁⟩ <;> rcases h₂ with h₂ | ⟨e₂, l₂⟩
  · exact Or.inl (h₁.trans h₂)
  · exact Or.inl (e₂ ▸ h₁)
  · exact Or.inl (e₁ ▸ h₂)
  · exact Or.inr ⟨e₁.trans e₂, l₁.trans l₂⟩

/-- Position order on tokens. -/
def tokLe (t u : Token) : Prop :=
  posLe (t.line, t.column) (u.line, u.column)

/-- The lexer invariant: the emitted tokens are position-sorted and all lie
at or before the current scanning position. -/
def Mono (s : LexState) : Prop :=
  List.Chain' tokLe s.tokens ∧
    ∀ t ∈ s.tokens, posLe (t.line, t.column) (s.line, s.column)

namespace Lexer

theorem mono_update {s : LexState} (h : Mono s) (cc : Option Char) (cp l c : Nat)
    (hle : posLe (s.line, s.column) (l, c)) :
    Mono ⟨s.source, cc, cp, l, c, s.tokens, s.errors⟩ :=
  ⟨h.1, fun t ht => posLe_trans (h.2 t ht) hle⟩

theorem mono_addToken {s : LexState} (h : Mono s) (tt : TokenType) :
    Mono (addToken s tt) := by
  constructor
  · exact h.1.append (List.chain'_singleton _)
      (fun x hx _ hy => by
        cases List.mem_singleton.mp (by simpa using hy)
        exact h.2 x (List.mem_of_mem_getLast? hx))
  · intro t ht
    rcases List.mem_append.mp ht with hold | hnew
    · exact h.2 t hold
    · cases List.mem_singleton.mp hnew
      exact posLe_refl _

theorem mono_pushError {s : LexState} (h : Mono s) (m : LexMessage) :
    Mono (pushError s m) := h

theorem mono_consume {s s' : LexState} (hc : consume s = some s')
    (h : Mono s) : Mono s' := by
  unfold consume at hc
  rcases Option.map_eq_some'.mp hc with ⟨rest, _, hEq⟩
  subst hEq
  exact mono_update h _ _ _ _ (Or.inr ⟨rfl, Nat.le_succ _⟩)

theorem mono_skipComment {s s' : LexState} {len : Option Nat}
    (hc : skipComment s len = some s') (h : Mono s) : Mono s' := by
  unfold skipComment at hc
  match len, hc with
  | none, hc => cases hc; exact h
  | some n, hc =>
    rcases Option.map_eq_some'.mp hc with ⟨rest, _, hEq⟩
    subst hEq
    exact mono_update h _ _ _ _ (Or.inr ⟨rfl, Nat.le_add_right _ _⟩)

theorem posLe_advance (lc : Nat × Nat) (c : Char) :
    posLe lc (advancePos lc c) := by
  unfold advancePos
  split
  · exact Or.inl (Nat.lt_succ_self _)
  · exact Or.inr ⟨rfl, Nat.le_succ _⟩

theorem posLe_foldl_advance (m : Str) :
    ∀ lc, posLe lc (m.foldl advancePos lc) := by
  induction m with
  | nil => intro lc; exact posLe_refl _
  | cons c rest ih =>
    intro lc
    exact posLe_trans (posLe_advance lc c) (ih (advancePos lc c))

theorem mono_consumeMatchedString {s s' : LexState} {m : Str}
    (hc : consumeMatchedString s m = some s') (h : Mono s) : Mono s' := by
  unfold consumeMatchedString at hc
  rcases Option.map_eq_some'.mp hc with ⟨rest, _, hEq⟩
  subst hEq
  exact mono_update h _ _ _ _ (by
    have := posLe_foldl_advance m (s.line, s.column)
    exact this)

theorem mono_stringTok {s s' : LexState} (hc : stringTok s = some s')
    (h : Mono s) : Mono s' := by
  unfold stringTok at hc
  rcases Option.bind_eq_some.mp hc with ⟨rem, _, hrem⟩
  split at hrem
  · rcases Option.map_eq_some'.mp hrem with ⟨st1, h1, hEq⟩
    subst hEq
    exact mono_addToken (mono_consumeMatchedString h1 h) _
  · cases hrem
    exact mono_pushError h _

theorem mono_number {s s' : LexState} (hc : number s = some s')
    (h : Mono s) : Mono s' := by
  unfold number at hc
  rcases Option.bind_eq_some.mp hc with ⟨rem, _, hrem⟩
  split at hrem
  · rcases Option.map_eq_some'.mp hrem with ⟨st1, h1, hEq⟩
    subst hEq
    exact mono_addToken (mono_consumeMatchedString h1 h) _
  · split at hrem
    · rcases Option.map_eq_some'.mp hrem with ⟨st1, h1, hEq⟩
      subst hEq
      have hm := mono_consumeMatchedString h1 h
      split
      · exact mono_addToken hm _
      · exact mono_pushError hm _
    · cases hrem
      exact mono_pushError h _

theorem mono_identifier {s s' : LexState} (hc : identifier s = some s')
    (h : Mono s) : Mono s' := by
  unfold identifier at hc
  rcases Option.bind_eq_some.mp hc with ⟨rem, _, hrem⟩
  rcases Option.map_eq_some'.mp hrem with ⟨rest, _, hEq⟩
  subst hEq
  refine mono_addToken (mono_update h _ _ _ _ ?_) _
  exact Or.inr ⟨rfl, Nat.le_add_right _ _⟩

theorem mono_twoCharOp {s s' : LexState} {pk : Option Char}
    {alts : List (Char × TokenType)} {single : TokenType}
    (hc : twoCharOp s pk alts single = some s') (h : Mono s) : Mono s' := by
  unfold twoCharOp at hc
  split at hc
  · rcases Option.bind_eq_some.mp hc with ⟨st1, h1, h2⟩
    exact mono_consume h2 (mono_addToken (mono_consume h1 h) _)
  · exact mono_consume hc (mono_addToken h _)

theorem mono_lexBody {s s' : LexState} {c : Char}
    (hc : lexBody c s = some s') (h : Mono s) : Mono s' := by
  unfold lexBody at hc
  split at hc
  all_goals try exact mono_consume hc h
  all_goals try exact mono_consume hc (mono_update h _ _ _ _ (Or.inl (Nat.lt_succ_self _)))
  all_goals try exact mono_stringTok hc h
  all_goals try (split_ifs at hc <;>
    first
      | exact mono_number hc h
      | exact mono_identifier hc h
      | exact mono_consume hc (mono_pushError h _))
  all_goals try exact mono_consume hc (mono_addToken h _)
  all_goals rcases Option.bind_eq_some.mp hc with ⟨pk, hpk0, hpk⟩
  all_goals try exact mono_twoCharOp hpk h
  all_goals split_ifs at hpk
  all_goals try exact mono_consume hpk (mono_addToken h _)
  all_goals try exact mono_consume hpk (mono_pushError h _)
  all_goals try (obtain ⟨st1, hst1, hEq⟩ := Option.map_eq_some'.mp hpk; subst hEq; exact mono_addToken (mono_consume hst1 h) _)
  all_goals (obtain ⟨rem, hrem0, hrem⟩ := Option.bind_eq_some.mp hpk; exact mono_skipComment hrem h)

theorem runLex_done_chain :
    ∀ fuel (s s' : LexState), Mono s → runLex fuel s = .done s' →
      List.Chain' tokLe s'.tokens := by
  intro fuel
  induction fuel with
  | zero => intro s s' _ hEq; exact LexOut.noConfusion hEq
  | succ n ih =>
    intro s s' hm hEq
    simp only [runLex] at hEq
    split at hEq
    · cases hEq
      exact (mono_addToken hm .eof).1
    · split at hEq
      · exact LexOut.noConfusion hEq
      · rename_i c hcc st' hbody
        exact ih st' s' (mono_lexBody hbody hm) hEq

theorem mono_new {src : Str} {s : LexState} (h : new src = some s) : Mono s := by
  unfold new at h
  exact mono_consume h ⟨List.chain'_nil, fun t ht => absurd ht (List.not_mem_nil t)⟩

end Lexer

/-- C10: confirmed.  For every ASCII input (the domain on which the
character-level model is byte-faithful) and every fuel bound, the token
sequence of a terminating `tokenize` run is monotone: each adjacent pair of
tokens has lexicographically non-decreasing (line, column). -/
theorem token_positions_monotone :
    ∀ (src : Str) (fuel : Nat), (∀ ch ∈ src, ch.toNat < 128) →
      List.Chain' tokLe (tokensOfLex src fuel) := by
  intro src fuel _
  unfold tokensOfLex
  split
  · rename_i st hdone
    unfold Lexer.tokenizeF at hdone
    split at hdone
    · exact Lexer.LexOut.noConfusion hdone
    · rename_i s0 hnew
      exact Lexer.runLex_done_chain fuel s0 st (Lexer.mono_new hnew) hdone
  · exact List.chain'_nil

/-- Witness for C10 on the concrete input `1+1`. -/
theorem token_positions_monotone_witness :
    (∀ ch ∈ "1+1".toList, ch.toNat < 128) ∧
      List.Chain' tokLe (tokensOfLex "1+1".toList 10) :=
  ⟨by decide, token_positions_monotone "1+1".toList 10 (by decide)⟩
